import Mathlib

/-!
Verification development for the Kemono EPUB creator.

JavaScript strings are embedded as `List Char`; JS numbers that are used as
counters or indices are embedded as `Nat`; progress percentages as `Rat`.
Network fetches are embedded as oracle functions returning `Except`, so a
thrown exception becomes an `Except.error` value and a `try/catch` becomes a
`match` on that value.  All definitions are executable.
-/

/-- ASCII lower-casing of one character, the effect of JS `toLowerCase` on the
ASCII range (all characters appearing in the claims are ASCII). -/
def charLower (c : Char) : Char :=
  if 'A' ≤ c ∧ c ≤ 'Z' then Char.ofNat (c.toNat + 32) else c

/-- JS `String.prototype.toLowerCase` on a string, restricted to ASCII. -/
def lowerL (l : List Char) : List Char := l.map charLower

/-- The JS `\s` character class (whitespace). -/
def isJsSpace (c : Char) : Bool :=
  c = ' ' ∨ c = '\t' ∨ c = '\n' ∨ c = '\r' ∨ c = '\x0b' ∨ c = '\x0c' ∨
  c = ' ' ∨ c = ' ' ∨ (' ' ≤ c ∧ c ≤ ' ') ∨
  c = ' ' ∨ c = ' ' ∨ c = ' ' ∨ c = ' ' ∨
  c = '　' ∨ c = '﻿'

/-- Characters allowed by `sanitizeBasenameForXhtmlStrict`'s keep-class
`[A-Za-z0-9._-]`. -/
def allowedChar (c : Char) : Bool :=
  ('A' ≤ c ∧ c ≤ 'Z') ∨ ('a' ≤ c ∧ c ≤ 'z') ∨ ('0' ≤ c ∧ c ≤ '9') ∨
  c = '.' ∨ c = '_' ∨ c = '-'

/-- Case-insensitive character comparison (JS `/i` regex flag, ASCII). -/
def ciEq (a b : Char) : Bool := charLower a = charLower b

/-- Case-insensitive prefix test on character lists. -/
def ciStarts : List Char → List Char → Bool
  | [], _ => true
  | _ :: _, [] => false
  | p :: ps, c :: cs => ciEq p c && ciStarts ps cs

/-- JS word characters (`\w`), used for the `\b` boundary in the script regex. -/
def isWordChar (c : Char) : Bool :=
  ('A' ≤ c ∧ c ≤ 'Z') ∨ ('a' ≤ c ∧ c ≤ 'z') ∨ ('0' ≤ c ∧ c ≤ '9') ∨ c = '_'

/-! ### Decimal representation of counters (JS `Number.prototype.toString`)

Implemented with structural recursion on a fuel argument so that every use is
kernel-computable; `decDigitsFuel_sound` shows the fuel `n` always suffices. -/

/-- Little-endian decimal digits of `n`, with explicit fuel. -/
def decDigitsAux : Nat → Nat → List Nat
  | _, 0 => []
  | 0, _ + 1 => []
  | f + 1, m + 1 => ((m + 1) % 10) :: decDigitsAux f ((m + 1) / 10)

/-- Little-endian decimal digits of `n` (empty for 0). -/
def decDigits (n : Nat) : List Nat := decDigitsAux n n

/-- Value of a little-endian digit list. -/
def decVal : List Nat → Nat
  | [] => 0
  | d :: ds => d + 10 * decVal ds

theorem decVal_decDigitsAux : ∀ f n, n ≤ f → decVal (decDigitsAux f n) = n := by
  intro f
  induction f with
  | zero =>
    intro n hn
    interval_cases n
    rfl
  | succ f ih =>
    intro n hn
    match n with
    | 0 => rfl
    | m + 1 =>
      have hdiv : (m + 1) / 10 ≤ f := by
        have h1 : (m + 1) / 10 < m + 1 := Nat.div_lt_self (Nat.succ_pos m) (by omega)
        omega
      simp only [decDigitsAux, decVal, ih _ hdiv]
      omega

theorem decDigits_val (n : Nat) : decVal (decDigits n) = n :=
  decVal_decDigitsAux n n (Nat.le_refl n)

theorem decDigits_inj {a b : Nat} (h : decDigits a = decDigits b) : a = b := by
  have := decDigits_val a
  rw [h, decDigits_val] at this
  omega

theorem mem_decDigitsAux_lt : ∀ f n d, d ∈ decDigitsAux f n → d < 10 := by
  intro f
  induction f with
  | zero =>
    intro n d hd
    match n with
    | 0 => simp [decDigitsAux] at hd
    | _ + 1 => simp [decDigitsAux] at hd
  | succ f ih =>
    intro n d hd
    match n with
    | 0 => simp [decDigitsAux] at hd
    | m + 1 =>
      simp only [decDigitsAux, List.mem_cons] at hd
      rcases hd with h | h
      · omega
      · exact ih _ _ h

theorem decDigitsAux_ne_nil : ∀ f n, 1 ≤ n → n ≤ f → decDigitsAux f n ≠ [] := by
  intro f n h1 h2
  match f, n with
  | 0, _ => omega
  | f + 1, 0 => omega
  | f + 1, m + 1 => simp [decDigitsAux]

/-- The most significant digit (head of the reversed digit list) is nonzero. -/
theorem decDigitsAux_rev_head :
    ∀ f n, 1 ≤ n → n ≤ f →
      ∃ d, ((decDigitsAux f n).reverse).head? = some d ∧ d ≠ 0 ∧ d < 10 := by
  intro f
  induction f with
  | zero => intro n h1 h2; omega
  | succ f ih =>
    intro n h1 h2
    match n with
    | m + 1 =>
      by_cases hq : (m + 1) / 10 = 0
      · have hm : m + 1 < 10 := by
          rcases Nat.lt_or_ge (m + 1) 10 with h | h
          · exact h
          · exact absurd hq (by have := Nat.div_le_div_right (c := 10) h; simp at this; omega)
        refine ⟨(m + 1) % 10, ?_, by omega, by omega⟩
        simp [decDigitsAux, hq, decDigitsAux.eq_def]
      · have hdiv1 : 1 ≤ (m + 1) / 10 := Nat.one_le_iff_ne_zero.mpr hq
        have hdiv2 : (m + 1) / 10 ≤ f := by
          have : (m + 1) / 10 < m + 1 := Nat.div_lt_self (Nat.succ_pos m) (by omega)
          omega
        obtain ⟨d, hd, hdne, hdlt⟩ := ih _ hdiv1 hdiv2
        refine ⟨d, ?_, hdne, hdlt⟩
        have hne : decDigitsAux f ((m + 1) / 10) ≠ [] := decDigitsAux_ne_nil f _ hdiv1 hdiv2
        have hrevne : (decDigitsAux f ((m + 1) / 10)).reverse ≠ [] := by
          simpa using hne
        simp only [decDigitsAux, List.reverse_cons]
        rw [List.head?_append_of_ne_nil _ hrevne]
        exact hd

/-- JS `n.toString()` for a natural number, as a character list. -/
def natRepr (n : Nat) : List Char :=
  if n = 0 then ['0'] else ((decDigits n).reverse).map Nat.digitChar

theorem digitChar_inj :
    ∀ a, a < 10 → ∀ b, b < 10 → Nat.digitChar a = Nat.digitChar b → a = b := by
  decide

theorem map_digitChar_inj :
    ∀ l₁ l₂ : List Nat, (∀ x ∈ l₁, x < 10) → (∀ x ∈ l₂, x < 10) →
      l₁.map Nat.digitChar = l₂.map Nat.digitChar → l₁ = l₂ := by
  intro l₁
  induction l₁ with
  | nil => intro l₂ _ _ h; cases l₂ <;> simp_all
  | cons a t ih =>
    intro l₂ h1 h2 h
    cases l₂ with
    | nil => simp at h
    | cons b t₂ =>
      simp only [List.map_cons, List.cons.injEq] at h
      have ha : a = b :=
        digitChar_inj a (h1 a (by simp)) b (h2 b (by simp)) h.1
      have ht : t = t₂ :=
        ih t₂ (fun x hx => h1 x (by simp [hx])) (fun x hx => h2 x (by simp [hx])) h.2
      rw [ha, ht]

theorem natRepr_ne_nil (n : Nat) : natRepr n ≠ [] := by
  unfold natRepr
  split
  · simp
  · rename_i h
    have h1 : 1 ≤ n := Nat.one_le_iff_ne_zero.mpr h
    have := decDigitsAux_ne_nil n n h1 (Nat.le_refl n)
    simp [decDigits]
    simpa using this

theorem natRepr_head_ne_zero {n : Nat} (h : 1 ≤ n) :
    ∃ c, (natRepr n).head? = some c ∧ c ≠ '0' := by
  obtain ⟨d, hd, hdne, hdlt⟩ := decDigitsAux_rev_head n n h (Nat.le_refl n)
  refine ⟨Nat.digitChar d, ?_, ?_⟩
  · unfold natRepr decDigits
    rw [if_neg (by omega)]
    rw [List.head?_map, hd]
    rfl
  · intro hc
    have : d = 0 := digitChar_inj d hdlt 0 (by omega) (by simpa using hc)
    exact hdne this

theorem natRepr_inj : ∀ a b, natRepr a = natRepr b → a = b := by
  have key : ∀ a b, 1 ≤ a → 1 ≤ b → natRepr a = natRepr b → a = b := by
    intro a b ha hb h
    unfold natRepr at h
    rw [if_neg (by omega), if_neg (by omega)] at h
    have hrev : (decDigits a).reverse = (decDigits b).reverse :=
      map_digitChar_inj _ _
        (fun x hx => mem_decDigitsAux_lt a a x (by simpa using hx))
        (fun x hx => mem_decDigitsAux_lt b b x (by simpa using hx)) h
    exact decDigits_inj (List.reverse_injective hrev)
  intro a b h
  match a, b with
  | 0, 0 => rfl
  | 0, m + 1 =>
    exfalso
    obtain ⟨c, hc, hcne⟩ := natRepr_head_ne_zero (n := m + 1) (by omega)
    rw [← h] at hc
    simp [natRepr] at hc
    exact hcne hc.symm
  | m + 1, 0 =>
    exfalso
    obtain ⟨c, hc, hcne⟩ := natRepr_head_ne_zero (n := m + 1) (by omega)
    rw [h] at hc
    simp [natRepr] at hc
    exact hcne hc.symm
  | m + 1, k + 1 => exact key _ _ (by omega) (by omega) h

/-! ### Filename sanitizers (src/Chromium/EpubGenerator.js lines 66-81)

`replaceRunsAux p r` is regex replace-all of maximal runs of `p`-characters
by the single character `r`, written with a previous-was-in-run flag so the
recursion is structural. -/

def replaceRunsAux (p : Char → Bool) (r : Char) : Bool → List Char → List Char
  | _, [] => []
  | inRun, c :: t =>
    if p c then
      if inRun then replaceRunsAux p r true t
      else r :: replaceRunsAux p r true t
    else c :: replaceRunsAux p r false t

theorem mem_replaceRunsAux (p : Char → Bool) (r : Char) :
    ∀ b l c, c ∈ replaceRunsAux p r b l → c = r ∨ c ∈ l := by
  intro b l
  induction l generalizing b with
  | nil => intro c hc; simp [replaceRunsAux] at hc
  | cons a t ih =>
    intro c hc
    simp only [replaceRunsAux] at hc
    split at hc
    · split at hc
      · rcases ih _ _ hc with h | h
        · exact Or.inl h
        · exact Or.inr (by simp [h])
      · rw [List.mem_cons] at hc
        rcases hc with h | h
        · exact Or.inl h
        · rcases ih _ _ h with h' | h'
          · exact Or.inl h'
          · exact Or.inr (by simp [h'])
    · rw [List.mem_cons] at hc
      rcases hc with h | h
      · exact Or.inr (by simp [h])
      · rcases ih _ _ h with h' | h'
        · exact Or.inl h'
        · exact Or.inr (by simp [h'])

/-- Characters stripped from the ends by `/^[._-]+|[._-]+$/g`. -/
def isTrimChar (c : Char) : Bool := c = '.' ∨ c = '_' ∨ c = '-'

/-- The sanitization pipeline of `sanitizeBasenameForXhtmlStrict` before the
empty-fallback and the length cap: collapse whitespace runs to `_`, replace
every character outside `[A-Za-z0-9._-]` by `_`, collapse `_` runs, strip
leading/trailing `[._-]` runs. -/
def basenameCore (l : List Char) : List Char :=
  let n1 := replaceRunsAux isJsSpace '_' false l
  let n2 := n1.map (fun c => if allowedChar c then c else '_')
  let n3 := replaceRunsAux (fun c => c = '_') '_' false n2
  ((n3.dropWhile isTrimChar).reverse.dropWhile isTrimChar).reverse

/-- `sanitizeBasenameForXhtmlStrict` (Chromium variant, lines 72-81). -/
def sanitizeBasenameForXhtmlStrict (basename : List Char) : List Char :=
  if basename = [] then ("chapter").data
  else (if basenameCore basename = [] then ("chapter").data else basenameCore basename).take 120

/-- Characters replaced by `sanitizeFilename`'s class `[\/\\?%*:|"<>]`. -/
def isFilenameBad (c : Char) : Bool :=
  c = '/' ∨ c = '\\' ∨ c = '?' ∨ c = '%' ∨ c = '*' ∨ c = ':' ∨ c = '|' ∨
  c = '"' ∨ c = '<' ∨ c = '>'

/-- `sanitizeFilename` (Chromium variant, lines 66-70): map path-unsafe
characters to `_`, collapse multi-`_` runs, cap at 200.  (Collapsing runs of
two or more underscores leaves single underscores unchanged, so it equals
collapsing all runs.) -/
def sanitizeFilename (l : List Char) : List Char :=
  (replaceRunsAux (fun c => c = '_') '_' false
    (l.map (fun c => if isFilenameBad c then '_' else c))).take 200

theorem basenameCore_allowed (l : List Char) :
    ∀ c ∈ basenameCore l, allowedChar c = true := by
  intro c hc
  unfold basenameCore at hc
  rw [List.mem_reverse] at hc
  have hc2 := (List.dropWhile_sublist isTrimChar).subset hc
  rw [List.mem_reverse] at hc2
  have hc3 := (List.dropWhile_sublist isTrimChar).subset hc2
  rcases mem_replaceRunsAux _ _ _ _ _ hc3 with h | h
  · simp [h]; decide
  · rw [List.mem_map] at h
    obtain ⟨a, _, ha⟩ := h
    by_cases hal : allowedChar a <;> simp [hal] at ha <;> simp [← ha, hal]
    decide

theorem chapterLit_allowed : ∀ c ∈ ("chapter").data, allowedChar c = true := by
  decide

/-- C10: `sanitizeBasenameForXhtmlStrict` always returns a non-empty string of
at most 120 characters drawn from `[A-Za-z0-9._-]`, and falls back to the
literal `"chapter"` when the input is empty or when the sanitization pipeline
leaves the empty string. -/
theorem sanitizeBasename_strict_spec (l : List Char) :
    sanitizeBasenameForXhtmlStrict l ≠ [] ∧
    (sanitizeBasenameForXhtmlStrict l).length ≤ 120 ∧
    (∀ c ∈ sanitizeBasenameForXhtmlStrict l, allowedChar c = true) ∧
    ((l = [] ∨ basenameCore l = []) →
      sanitizeBasenameForXhtmlStrict l = ("chapter").data) := by
  unfold sanitizeBasenameForXhtmlStrict
  by_cases hl : l = []
  · refine ⟨by rw [if_pos hl]; decide, by rw [if_pos hl]; decide, ?_, by rw [if_pos hl]; simp⟩
    intro c hc
    rw [if_pos hl] at hc
    exact chapterLit_allowed c hc
  · rw [if_neg hl]
    by_cases hcore : basenameCore l = []
    · rw [if_pos hcore]
      refine ⟨by decide, by decide, ?_, fun _ => by decide⟩
      intro c hc
      exact chapterLit_allowed c (List.take_subset _ _ hc)
    · rw [if_neg hcore]
      refine ⟨?_, ?_, ?_, ?_⟩
      · rw [Ne, List.take_eq_nil_iff]
        push_neg
        exact ⟨by omega, hcore⟩
      · rw [List.length_take]
        omega
      · intro c hc
        exact basenameCore_allowed l c (List.take_subset _ _ hc)
      · rintro (h | h)
        · exact absurd h hl
        · exact absurd h hcore

/-- Witness for C10 at concrete inputs: `"A b!c"` sanitizes to `"A_b_c"`-like
allowed output, and `"!!!"` falls back to `"chapter"`. -/
theorem sanitizeBasename_strict_spec_witness :
    sanitizeBasenameForXhtmlStrict (("!?!").data) = ("chapter").data ∧
    sanitizeBasenameForXhtmlStrict (("!?!").data) ≠ [] :=
  ⟨(sanitizeBasename_strict_spec (("!?!").data)).2.2.2 (Or.inr (by decide)),
   (sanitizeBasename_strict_spec (("!?!").data)).1⟩

/-! ### Case-insensitive filename uniquification
(src/Chromium/EpubGenerator.js lines 438-481, "ROBUST FILENAME GENERATION") -/

/-- JS `counter.toString().padStart(2, '0')`. -/
def padTwo (k : Nat) : List Char :=
  if (natRepr k).length < 2 then '0' :: natRepr k else natRepr k

theorem natRepr_lt_ten : ∀ n, n < 10 → natRepr n = [Nat.digitChar n] := by
  decide

theorem natRepr_two_le_length {n : Nat} (h : 10 ≤ n) : 2 ≤ (natRepr n).length := by
  unfold natRepr decDigits
  rw [if_neg (by omega)]
  rw [List.length_map, List.length_reverse]
  match n, h with
  | m + 1, h =>
    have hdiv1 : 1 ≤ (m + 1) / 10 := by
      have := Nat.div_le_div_right (c := 10) h
      simpa using this
    have hdiv2 : (m + 1) / 10 ≤ m := by
      have : (m + 1) / 10 < m + 1 := Nat.div_lt_self (Nat.succ_pos m) (by omega)
      omega
    have hne := decDigitsAux_ne_nil m _ hdiv1 hdiv2
    have : 1 ≤ (decDigitsAux m ((m + 1) / 10)).length := by
      cases hl : decDigitsAux m ((m + 1) / 10) with
      | nil => exact absurd hl hne
      | cons a t => simp
    simp only [decDigitsAux, List.length_cons]
    omega

theorem padTwo_cond_iff (n : Nat) : (natRepr n).length < 2 ↔ n < 10 := by
  constructor
  · intro h
    by_contra hn
    have := natRepr_two_le_length (n := n) (by omega)
    omega
  · intro h
    rw [natRepr_lt_ten n h]
    simp

theorem padTwo_inj : ∀ a b, padTwo a = padTwo b → a = b := by
  intro a b h
  unfold padTwo at h
  by_cases ha : (natRepr a).length < 2 <;> by_cases hb : (natRepr b).length < 2
  · rw [if_pos ha, if_pos hb] at h
    exact natRepr_inj a b (List.cons_injective h)
  · rw [if_pos ha, if_neg hb] at h
    rw [padTwo_cond_iff] at ha hb
    obtain ⟨c, hc, hcne⟩ := natRepr_head_ne_zero (n := b) (by omega)
    rw [← h] at hc
    simp at hc
    exact absurd hc.symm hcne
  · rw [if_neg ha, if_pos hb] at h
    rw [padTwo_cond_iff] at ha hb
    obtain ⟨c, hc, hcne⟩ := natRepr_head_ne_zero (n := a) (by omega)
    rw [h] at hc
    simp at hc
    exact absurd hc.symm hcne
  · rw [if_neg ha, if_neg hb] at h
    exact natRepr_inj a b h

theorem charLower_digitChar : ∀ d, d < 10 → charLower (Nat.digitChar d) = Nat.digitChar d := by
  decide

theorem lowerL_natRepr (n : Nat) : lowerL (natRepr n) = natRepr n := by
  unfold natRepr lowerL
  split
  · decide
  · rw [List.map_map]
    apply List.map_congr_left
    intro d hd
    rw [List.mem_reverse] at hd
    have := mem_decDigitsAux_lt n n d hd
    simp only [Function.comp_apply]
    exact charLower_digitChar d this

theorem lowerL_padTwo (k : Nat) : lowerL (padTwo k) = padTwo k := by
  unfold padTwo
  split
  · show charLower '0' :: lowerL (natRepr k) = _
    rw [lowerL_natRepr]
    rfl
  · exact lowerL_natRepr k

/-- The candidate tried at attempt `k` by the filename-collision loop:
the raw basename for `k = 0`, and `baseStrict_NN` (zero-padded counter,
counter starting at 1) for attempt `k ≥ 1`. -/
def fnCandidate (base : List Char) : Nat → List Char
  | 0 => base
  | k + 1 => base ++ '_' :: padTwo (k + 1)

theorem lowerL_fnCandidate (base : List Char) :
    ∀ k, lowerL (fnCandidate base k) =
      fnCandidate (lowerL base) k := by
  intro k
  match k with
  | 0 => rfl
  | k + 1 =>
    show lowerL (base ++ '_' :: padTwo (k + 1)) = lowerL base ++ '_' :: padTwo (k + 1)
    unfold lowerL
    rw [List.map_append, List.map_cons]
    have : charLower '_' = '_' := by decide
    rw [this]
    show _ ++ _ :: lowerL (padTwo (k + 1)) = _
    rw [lowerL_padTwo]

theorem fnCandidate_inj (base : List Char) : Function.Injective (fnCandidate base) := by
  intro j k h
  match j, k with
  | 0, 0 => rfl
  | 0, k + 1 =>
    exfalso
    have := congrArg List.length h
    simp [fnCandidate] at this
  | j + 1, 0 =>
    exfalso
    have := congrArg List.length h
    simp [fnCandidate] at this
  | j + 1, k + 1 =>
    simp only [fnCandidate] at h
    have h2 := List.append_cancel_left h
    have h3 : padTwo (j + 1) = padTwo (k + 1) := by
      exact List.cons_injective h2
    have := padTwo_inj _ _ h3
    omega

/-- Generic first-free search with explicit fuel: returns the first `k`
(starting at `k0`) with `bad k = false`, provided one exists within fuel. -/
def searchFree (bad : Nat → Bool) : Nat → Nat → Nat
  | 0, k => k
  | fuel + 1, k => if bad k then searchFree bad fuel (k + 1) else k

theorem searchFree_spec (bad : Nat → Bool) :
    ∀ fuel k0, (∃ j, k0 ≤ j ∧ j < k0 + fuel + 1 ∧ bad j = false) →
      bad (searchFree bad fuel k0) = false := by
  intro fuel
  induction fuel with
  | zero =>
    intro k0 ⟨j, hj1, hj2, hj3⟩
    have : j = k0 := by omega
    subst this
    exact hj3
  | succ fuel ih =>
    intro k0 ⟨j, hj1, hj2, hj3⟩
    simp only [searchFree]
    by_cases hb : bad k0
    · rw [if_pos hb]
      apply ih
      refine ⟨j, ?_, by omega, hj3⟩
      rcases Nat.eq_or_lt_of_le hj1 with h | h
      · subst h; rw [hj3] at hb; exact absurd hb (by simp)
      · omega
    · rw [if_neg hb]
      simpa using hb

theorem searchFree_le (bad : Nat → Bool) :
    ∀ fuel k0, k0 ≤ searchFree bad fuel k0 := by
  intro fuel
  induction fuel with
  | zero => intro k0; exact Nat.le_refl k0
  | succ fuel ih =>
    intro k0
    simp only [searchFree]
    split
    · exact Nat.le_trans (by omega) (ih (k0 + 1))
    · exact Nat.le_refl k0

theorem exists_free_fnCandidate (used : List (List Char)) (base : List Char) :
    ∃ k, k ≤ used.length ∧ lowerL (fnCandidate base k) ∉ used := by
  by_contra hall
  push_neg at hall
  have hmem : ∀ k ∈ Finset.range (used.length + 1),
      lowerL (fnCandidate base k) ∈ used.toFinset := by
    intro k hk
    rw [Finset.mem_range] at hk
    rw [List.mem_toFinset]
    exact hall k (by omega)
  have hinj : Set.InjOn (fun k => lowerL (fnCandidate base k))
      (Finset.range (used.length + 1)) := by
    intro j _ k _ h
    simp only [lowerL_fnCandidate] at h
    exact fnCandidate_inj (lowerL base) h
  have hsub : Finset.image (fun k => lowerL (fnCandidate base k))
      (Finset.range (used.length + 1)) ⊆ used.toFinset := by
    intro x hx
    rw [Finset.mem_image] at hx
    obtain ⟨k, hk, rfl⟩ := hx
    exact hmem k hk
  have hcard := Finset.card_le_card hsub
  rw [Finset.card_image_of_injOn hinj, Finset.card_range] at hcard
  have := List.toFinset_card_le used
  omega

/-- The filename-collision loop of the Chromium orchestrator: try the raw
basename, then `base_01`, `base_02`, … until the lowercased candidate is not
in the used set.  Run with fuel `used.length + 1`, which
`uniquifyFilename_free` shows always suffices to find a free candidate. -/
def uniquifyFilename (used : List (List Char)) (base : List Char) : List Char :=
  fnCandidate base
    (searchFree (fun k => decide (lowerL (fnCandidate base k) ∈ used)) (used.length + 1) 0)

theorem uniquifyFilename_free (used : List (List Char)) (base : List Char) :
    lowerL (uniquifyFilename used base) ∉ used := by
  obtain ⟨k, hk1, hk2⟩ := exists_free_fnCandidate used base
  have := searchFree_spec (fun k => decide (lowerL (fnCandidate base k) ∈ used))
    (used.length + 1) 0 ⟨k, by omega, by omega, by simpa using hk2⟩
  unfold uniquifyFilename
  simpa using this

/-- The per-post basename allocation of the Chromium orchestrator
(lines 442-489): strict-sanitize the title (with the `Chapter_${i}` fallback
for a falsy title), resolve collisions case-insensitively, record the
lowercased winner in the used set. -/
def assignFilenamesAux : Nat → List (List Char) → List (List Char) → List (List Char)
  | _, _, [] => []
  | i, used, t :: ts =>
    let base := sanitizeBasenameForXhtmlStrict
      (if t = [] then ("Chapter_").data ++ natRepr i else t)
    let fn := uniquifyFilename used base
    fn :: assignFilenamesAux (i + 1) (lowerL fn :: used) ts

/-- Chapter basenames assigned over a whole generation run, in post order. -/
def assignFilenames (titles : List (List Char)) : List (List Char) :=
  assignFilenamesAux 0 [] titles

theorem assignFilenamesAux_not_mem :
    ∀ ts i used x, x ∈ assignFilenamesAux i used ts → lowerL x ∉ used := by
  intro ts
  induction ts with
  | nil => intro i used x hx; simp [assignFilenamesAux] at hx
  | cons t ts ih =>
    intro i used x hx
    simp only [assignFilenamesAux, List.mem_cons] at hx
    rcases hx with rfl | hx
    · exact uniquifyFilename_free used _
    · have := ih _ _ _ hx
      intro hmem
      exact this (List.mem_cons_of_mem _ hmem)

theorem assignFilenamesAux_nodup :
    ∀ ts i used, ((assignFilenamesAux i used ts).map lowerL).Nodup := by
  intro ts
  induction ts with
  | nil => intro i used; simp [assignFilenamesAux]
  | cons t ts ih =>
    intro i used
    simp only [assignFilenamesAux, List.map_cons, List.nodup_cons]
    refine ⟨?_, ih _ _⟩
    intro hmem
    rw [List.mem_map] at hmem
    obtain ⟨x, hx, hxeq⟩ := hmem
    have := assignFilenamesAux_not_mem ts _ _ x hx
    rw [hxeq] at this
    exact this (List.mem_cons_self _ _)

/-- C5 (amended): the Chromium orchestrator's collision loop appends a
deterministic zero-padded numeric suffix, compared case-insensitively, so the
chapter basenames of a run are pairwise distinct even after lower-casing, and
hence the chapter manifest ids `ch-<basename>` and chapter archive paths
`Text/<basename>.xhtml` are pairwise distinct.  (The original claim's
archive-wide uniqueness fails: see the counterexample, where a chapter whose
title sanitizes to `toc` shares its archive path with the generated contents
page.) -/
theorem chromium_chapter_names_unique (titles : List (List Char)) :
    ((assignFilenames titles).map lowerL).Nodup ∧
    (assignFilenames titles).Nodup ∧
    ((assignFilenames titles).map (fun b => ("ch-").data ++ b)).Nodup ∧
    ((assignFilenames titles).map (fun b => ("Text/").data ++ (b ++ (".xhtml").data))).Nodup := by
  have h1 : ((assignFilenames titles).map lowerL).Nodup := assignFilenamesAux_nodup titles 0 []
  have h2 : (assignFilenames titles).Nodup := List.Nodup.of_map lowerL h1
  refine ⟨h1, h2, ?_, ?_⟩
  · exact List.Nodup.map (fun a b h => List.append_cancel_left h) h2
  · refine List.Nodup.map ?_ h2
    intro a b h
    have h2 := List.append_cancel_left h
    exact List.append_cancel_right h2

/-! ### Markup sanitization (src/Chromium/EpubGenerator.js lines 730-770)

Each regex replace-all is embedded as a matcher returning
`(replacementText, remainderAfterMatch)` plus the generic scanner
`scanReplace`, which tries the matcher at every position left to right and,
like the JS engine, continues after the replaced span.  Fuel is the input
length; every matcher consumes at least one character per match. -/

def scanReplace (m : List Char → Option (List Char × List Char)) :
    Nat → List Char → List Char
  | _, [] => []
  | 0, l => l
  | fuel + 1, c :: t =>
    match m (c :: t) with
    | some (rep, rest) => rep ++ scanReplace m fuel rest
    | none => c :: scanReplace m fuel t

/-- Matcher for `/&nbsp;/gi` replaced by `&#160;`. -/
def nbspMatcher (l : List Char) : Option (List Char × List Char) :=
  if ciStarts (("&nbsp;").data) l then some ((("&#160;").data), l.drop 6) else none

/-- `replaceUnsupportedEntities` (lines 730-733). -/
def replaceUnsupportedEntities (l : List Char) : List Char :=
  scanReplace nbspMatcher l.length l

/-- First index (if any) at which the case-insensitive pattern occurs. -/
def findCIIdx (pat : List Char) : List Char → Option Nat
  | [] => if ciStarts pat [] then some 0 else none
  | c :: t => if ciStarts pat (c :: t) then some 0 else (findCIIdx pat t).map (· + 1)

/-- Matcher for the script-stripping regex
`/<script\b[^<]*(?:(?!<\/script>)<[^<]*)*<\/script>/gi`: an occurrence of
`<script` at a word boundary, extending to the first subsequent `</script>`;
the whole match is deleted. -/
def scriptMatcher (l : List Char) : Option (List Char × List Char) :=
  if ciStarts (("<script").data) l then
    let after := l.drop 7
    let boundaryOk := match after.head? with
      | none => true
      | some c => !(isWordChar c)
    if boundaryOk then
      match findCIIdx (("</script>").data) after with
      | some i => some ([], after.drop (i + 9))
      | none => none
    else none
  else none

/-- The script-stripping pass of `sanitizeHtmlContent` (lines 763-765). -/
def stripScriptElements (l : List Char) : List Char :=
  scanReplace scriptMatcher l.length l

/-- Matcher for `normalizeXhtmlVoidTags`' regex `/<br(\s*)>/gi`, replaced by
the literal `<br />`. -/
def brMatcher (l : List Char) : Option (List Char × List Char) :=
  if ciStarts (("<br").data) l then
    let after := (l.drop 3).dropWhile (fun c => isJsSpace c)
    match after.head? with
    | some c => if c = '>' then some ((("<br />").data), after.tail) else none
    | none => none
  else none

/-- `normalizeXhtmlVoidTags` (lines 735-738). -/
def normalizeXhtmlVoidTags (l : List Char) : List Char :=
  scanReplace brMatcher l.length l

/-- Matcher for `selfCloseVoidElements`' per-tag regex
`<tag([^>]*?)>(?!\s*</tag>)` (case-insensitive), replaced by `<tag$1/>` with
the lowercase tag from the code's table. -/
def voidNormalMatcher (tag : List Char) (l : List Char) :
    Option (List Char × List Char) :=
  if ciStarts ('<' :: tag) l then
    let l2 := l.drop (tag.length + 1)
    let seg := l2.takeWhile (fun c => c ≠ '>')
    let l3 := l2.drop seg.length
    match l3.head? with
    | some _ =>
      let rest := l3.tail
      let look := rest.dropWhile (fun c => isJsSpace c)
      if ciStarts ('<' :: '/' :: (tag ++ ['>'])) look then none
      else some ('<' :: (tag ++ seg ++ ['/', '>']), rest)
    | none => none
  else none

/-- Matcher for `selfCloseVoidElements`' per-tag cleanup regex
`<tag([^>]*?)\s*\/\/{2,}>` (three or more slashes before the `>`),
replaced by `<tag$1/>`. -/
def voidExtraMatcher (tag : List Char) (l : List Char) :
    Option (List Char × List Char) :=
  if ciStarts ('<' :: tag) l then
    let l2 := l.drop (tag.length + 1)
    let seg := l2.takeWhile (fun c => c ≠ '>')
    let l3 := l2.drop seg.length
    match l3.head? with
    | some _ =>
      let sl := (seg.reverse.takeWhile (fun c => c = '/')).length
      if 3 ≤ sl then
        let a := ((seg.reverse.drop sl).dropWhile (fun c => isJsSpace c)).reverse
        some ('<' :: (tag ++ a ++ ['/', '>']), l3.tail)
      else none
    | none => none
  else none

/-- Matcher for the final cleanup regex `/<([a-z]+)([^>]*)\/\/+>/gi`,
replaced by `<$1$2/>` (two or more slashes collapse to one). -/
def cleanupMatcher (l : List Char) : Option (List Char × List Char) :=
  match l with
  | '<' :: t =>
    let letters := t.takeWhile (fun c => ('a' ≤ c ∧ c ≤ 'z') ∨ ('A' ≤ c ∧ c ≤ 'Z'))
    if letters = [] then none
    else
      let l2 := t.drop letters.length
      let seg := l2.takeWhile (fun c => c ≠ '>')
      let l3 := l2.drop seg.length
      match l3.head? with
      | some _ =>
        let sl := (seg.reverse.takeWhile (fun c => c = '/')).length
        if 2 ≤ sl then
          some ('<' :: (letters ++ seg.take (seg.length - 2) ++ ['/', '>']), l3.tail)
        else none
      | none => none
  | _ => none

/-- The HTML void-element table of `selfCloseVoidElements` (lines 742-745). -/
def voidEls : List (List Char) :=
  [("area").data, ("base").data, ("br").data, ("col").data, ("embed").data,
   ("hr").data, ("img").data, ("input").data, ("keygen").data, ("link").data,
   ("meta").data, ("param").data, ("source").data, ("track").data, ("wbr").data]

/-- One iteration of `selfCloseVoidElements`' `forEach`: the normal pass then
the extra-slash pass for a single tag. -/
def applyVoidTag (h : List Char) (tag : List Char) : List Char :=
  let h1 := scanReplace (voidNormalMatcher tag) h.length h
  scanReplace (voidExtraMatcher tag) h1.length h1

/-- `selfCloseVoidElements` (lines 740-759). -/
def selfCloseVoidElements (l : List Char) : List Char :=
  let h := voidEls.foldl applyVoidTag l
  scanReplace cleanupMatcher h.length h

/-- `sanitizeHtmlContent` (lines 761-770): strip script elements, replace the
unsupported `&nbsp;` entity, self-close `<br>` and the other void elements. -/
def sanitizeHtmlContent (l : List Char) : List Char :=
  selfCloseVoidElements (normalizeXhtmlVoidTags (replaceUnsupportedEntities
    (stripScriptElements l)))

/-! ### Idempotence analysis of the sanitization passes (claim C8) -/

/-- `true` iff the case-insensitive pattern occurs somewhere in the list. -/
def containsCI (pat : List Char) : List Char → Bool
  | [] => ciStarts pat []
  | c :: t => ciStarts pat (c :: t) || containsCI pat t

/-- The proper suffixes of the pattern `&nbsp;`. -/
def nbspTails : List (List Char) :=
  [("nbsp;").data, ("bsp;").data, ("sp;").data, ("p;").data, (";").data]

theorem nbspTails_rep_no_match :
    ∀ q ∈ nbspTails, ∀ x, ciStarts q ((("&#160;").data) ++ x) = false := by
  intro q hq x
  fin_cases hq <;>
    · show ciStarts _ ('&' :: '#' :: '1' :: '6' :: '0' :: ';' :: x) = false
      simp only [ciStarts]
      decide

theorem nbspTails_tail_closed :
    ∀ q ∈ nbspTails, q.tail = [] ∨ q.tail ∈ nbspTails := by
  decide

theorem nbsp_tail_no_new_match :
    ∀ fuel t q, q ∈ nbspTails → ciStarts q t = false →
      ciStarts q (scanReplace nbspMatcher fuel t) = false := by
  intro fuel
  induction fuel with
  | zero =>
    intro t q hq ht
    cases t with
    | nil => simpa [scanReplace] using ht
    | cons c t' => simpa [scanReplace] using ht
  | succ fuel ih =>
    intro t q hq ht
    cases t with
    | nil => simpa [scanReplace] using ht
    | cons c t' =>
      by_cases hs : ciStarts (("&nbsp;").data) (c :: t') = true
      · have hm : nbspMatcher (c :: t') =
            some ((("&#160;").data), (c :: t').drop 6) := by
          unfold nbspMatcher
          rw [if_pos hs]
        simp only [scanReplace, hm]
        exact nbspTails_rep_no_match q hq _
      · have hs' : ciStarts (("&nbsp;").data) (c :: t') = false := by
          simpa using hs
        have hm : nbspMatcher (c :: t') = none := by
          unfold nbspMatcher
          rw [if_neg (by simp [hs'])]
        simp only [scanReplace, hm]
        obtain ⟨qh, qt, rfl⟩ : ∃ a l, q = a :: l := by
          cases q with
          | nil => exact absurd hq (by decide)
          | cons a l => exact ⟨a, l, rfl⟩
        show (ciEq qh c && ciStarts qt (scanReplace nbspMatcher fuel t')) = false
        cases hc : ciEq qh c with
        | false => simp
        | true =>
          have htt : ciStarts qt t' = false := by
            have h2 : (ciEq qh c && ciStarts qt t') = false := ht
            rw [hc] at h2
            simpa using h2
          have hcl := nbspTails_tail_closed _ hq
          simp only [List.tail_cons] at hcl
          rcases hcl with h | h
          · subst h
            simp [ciStarts] at htt
          · simp [ih t' qt h htt]

theorem containsCI_nbsp_rep (x : List Char) :
    containsCI (("&nbsp;").data) ((("&#160;").data) ++ x) =
      containsCI (("&nbsp;").data) x := by
  show containsCI _ ('&' :: '#' :: '1' :: '6' :: '0' :: ';' :: x) = _
  simp only [containsCI, ciStarts]
  have h1 : ciEq 'n' '#' = false := by decide
  have h2 : ciEq '&' '#' = false := by decide
  have h3 : ciEq '&' '1' = false := by decide
  have h4 : ciEq '&' '6' = false := by decide
  have h5 : ciEq '&' '0' = false := by decide
  have h6 : ciEq '&' ';' = false := by decide
  simp [h1, h2, h3, h4, h5, h6]

theorem nbsp_head_no_new_match (fuel : Nat) (t : List Char) (c : Char)
    (h : ciStarts (("&nbsp;").data) (c :: t) = false) :
    ciStarts (("&nbsp;").data) (c :: scanReplace nbspMatcher fuel t) = false := by
  show (ciEq '&' c && ciStarts (("nbsp;").data) (scanReplace nbspMatcher fuel t)) = false
  cases hc : ciEq '&' c with
  | false => simp
  | true =>
    have ht : ciStarts (("nbsp;").data) t = false := by
      have h2 : (ciEq '&' c && ciStarts (("nbsp;").data) t) = false := h
      rw [hc] at h2
      simpa using h2
    simp [nbsp_tail_no_new_match fuel t _ (by decide) ht]

theorem containsCI_scanReplace_nbsp :
    ∀ fuel t, t.length ≤ fuel →
      containsCI (("&nbsp;").data) (scanReplace nbspMatcher fuel t) = false := by
  intro fuel
  induction fuel with
  | zero =>
    intro t ht
    have : t = [] := by
      cases t with
      | nil => rfl
      | cons a l => simp at ht
    subst this
    decide
  | succ fuel ih =>
    intro t ht
    cases t with
    | nil =>
      simp only [scanReplace]
      decide
    | cons c t' =>
      by_cases hs : ciStarts (("&nbsp;").data) (c :: t') = true
      · have hm : nbspMatcher (c :: t') =
            some ((("&#160;").data), (c :: t').drop 6) := by
          unfold nbspMatcher
          rw [if_pos hs]
        simp only [scanReplace, hm]
        rw [containsCI_nbsp_rep]
        apply ih
        simp only [List.length_drop, List.length_cons] at ht ⊢
        omega
      · have hs' : ciStarts (("&nbsp;").data) (c :: t') = false := by
          simpa using hs
        have hm : nbspMatcher (c :: t') = none := by
          unfold nbspMatcher
          rw [if_neg (by simp [hs'])]
        simp only [scanReplace, hm, containsCI]
        rw [nbsp_head_no_new_match fuel t' c hs',
          ih t' (by simp only [List.length_cons] at ht; omega)]
        rfl

theorem scanReplace_nbsp_id :
    ∀ fuel t, containsCI (("&nbsp;").data) t = false →
      scanReplace nbspMatcher fuel t = t := by
  intro fuel
  induction fuel with
  | zero => intro t _; cases t <;> simp [scanReplace]
  | succ fuel ih =>
    intro t h
    cases t with
    | nil => simp [scanReplace]
    | cons c t' =>
      simp only [containsCI, Bool.or_eq_false_iff] at h
      have hm : nbspMatcher (c :: t') = none := by
        unfold nbspMatcher
        rw [if_neg (by simp [h.1])]
      simp only [scanReplace, hm]
      rw [ih t' h.2]

/-- C8 (amended): the full sanitization pass is not idempotent (script
stripping can splice surrounding text into a new script element that only a
second pass removes; see the counterexample).  Its entity-replacement
component, however, is idempotent on every input: replacing `&nbsp;` by
`&#160;` twice equals doing it once. -/
theorem replaceUnsupportedEntities_idem (l : List Char) :
    replaceUnsupportedEntities (replaceUnsupportedEntities l) =
      replaceUnsupportedEntities l := by
  unfold replaceUnsupportedEntities
  apply scanReplace_nbsp_id
  exact containsCI_scanReplace_nbsp l.length l (Nat.le_refl _)

/-- C8 counterexample: sanitizing
`<scr<script>a</script>ipt>b</script>` once yields `<script>b</script>`
(the removal of the inner script element splices a new one together), and
sanitizing a second time strips that too, so the pass is not idempotent. -/
theorem sanitizeHtmlContent_not_idem :
    sanitizeHtmlContent
        (sanitizeHtmlContent (("<scr<script>a</script>ipt>b</script>").data)) ≠
      sanitizeHtmlContent (("<scr<script>a</script>ipt>b</script>").data) := by
  decide

/-! ### The EPUB packer, Chromium variant
(src/Chromium/EpubGenerator.js lines 506-622)

The JSZip container is embedded as a list of entries in creation order:
`file` on a fresh path appends, `file` on an existing path replaces in place,
`folder` appends a directory entry once.  Only the mimetype entry's exact
content matters to the claims, so generated documents and image payloads are
represented by tagged constructors instead of serialized XML. -/

inductive ZipData
  | text (s : List Char)
  | dir
  | doc (tag : List Char)
  | payload (tag : List Char)
deriving DecidableEq, Repr

inductive ZipCompression
  | store
  | deflate
deriving DecidableEq, Repr

structure ZipEntry where
  path : List Char
  data : ZipData
  compression : ZipCompression
deriving DecidableEq, Repr

def zipFile (z : List ZipEntry) (path : List Char) (d : ZipData)
    (comp : ZipCompression) : List ZipEntry :=
  if z.any (fun e => e.path = path) then
    z.map (fun e => if e.path = path then ⟨path, d, comp⟩ else e)
  else z ++ [⟨path, d, comp⟩]

def zipFolder (z : List ZipEntry) (path : List Char) : List ZipEntry :=
  if z.any (fun e => e.path = path) then z
  else z ++ [⟨path, ZipData.dir, ZipCompression.store⟩]

structure ManifestItem where
  id : List Char
  href : List Char
  mediaType : List Char
  properties : Option (List Char)
deriving DecidableEq, Repr

structure TocEntryC where
  rawTitle : List Char
  href : List Char
deriving DecidableEq, Repr

structure CPacker where
  manifestItems : List ManifestItem
  spineOrder : List (List Char)
  tocEntries : List TocEntryC
  fileCounter : Nat
  imageIdCounter : Nat
  usedImageIds : List (List Char)
  usedImagePaths : List (List Char)
  coverImageId : Option (List Char)
  zip : List ZipEntry
deriving Repr

/-- The `EpubPacker` constructor: mimetype entry first (stored), then the
`OEBPS`, `Text`, `Images`, `Styles` folders. -/
def cInit : CPacker where
  manifestItems := []
  spineOrder := []
  tocEntries := []
  fileCounter := 0
  imageIdCounter := 0
  usedImageIds := []
  usedImagePaths := []
  coverImageId := none
  zip :=
    zipFolder (zipFolder (zipFolder (zipFolder
      (zipFile [] (("mimetype").data)
        (ZipData.text (("application/epub+zip").data)) ZipCompression.store)
      (("OEBPS/").data)) (("OEBPS/Text/").data)) (("OEBPS/Images/").data))
      (("OEBPS/Styles/").data)

/-- `addStylesheet`. -/
def cAddStylesheet (st : CPacker) : CPacker :=
  { st with
    zip := zipFile st.zip (("OEBPS/Styles/stylesheet.css").data)
      (ZipData.doc (("css").data)) ZipCompression.deflate
    manifestItems := st.manifestItems ++
      [⟨("css").data, ("Styles/stylesheet.css").data, ("text/css").data, none⟩] }

/-- `addCoverImage(imageBlob, fileNameInEpub, mimeType)`: registers the image
with id `cover-image`, writes `Text/cover.xhtml`, and unshifts `cover-xhtml`
onto the spine. -/
def cAddCoverImage (st : CPacker) (fileNameInEpub mime : List Char) : CPacker :=
  { st with
    zip := zipFile
      (zipFile st.zip ((("OEBPS/Images/").data) ++ fileNameInEpub)
        (ZipData.payload fileNameInEpub) ZipCompression.deflate)
      (("OEBPS/Text/cover.xhtml").data) (ZipData.doc (("cover").data))
      ZipCompression.deflate
    manifestItems := st.manifestItems ++
      [⟨("cover-image").data, (("Images/").data) ++ fileNameInEpub, mime,
        some (("cover-image").data)⟩,
       ⟨("cover-xhtml").data, ("Text/cover.xhtml").data,
        ("application/xhtml+xml").data, none⟩]
    coverImageId := some (("cover-image").data)
    spineOrder := (("cover-xhtml").data) :: st.spineOrder }

/-- `addImageToManifest(imageInfo)`: skip when the image path was already
used, otherwise allocate the next free `img-N` id and register the image. -/
def cAddImageToManifest (st : CPacker) (fileNameInEpub mime : List Char) : CPacker :=
  if fileNameInEpub ∈ st.usedImagePaths then st
  else
    let k := searchFree
      (fun k => decide ((("img-").data) ++ natRepr k ∈ st.usedImageIds))
      (st.usedImageIds.length + 1) st.imageIdCounter
    let imageId := (("img-").data) ++ natRepr k
    { st with
      usedImagePaths := st.usedImagePaths ++ [fileNameInEpub]
      imageIdCounter := k + 1
      usedImageIds := st.usedImageIds ++ [imageId]
      zip := zipFile st.zip ((("OEBPS/Images/").data) ++ fileNameInEpub)
        (ZipData.payload fileNameInEpub) ZipCompression.deflate
      manifestItems := st.manifestItems ++
        [⟨imageId, (("Images/").data) ++ fileNameInEpub, mime, none⟩] }

/-- Case-sensitive prefix test. -/
def litStarts : List Char → List Char → Bool
  | [], _ => true
  | _ :: _, [] => false
  | p :: ps, c :: cs => (p = c) && litStarts ps cs

/-- The chapter-file basename: `chapterId` with a leading `ch-` stripped. -/
def stripChPre (chapterId : List Char) : List Char :=
  if litStarts (("ch-").data) chapterId then chapterId.drop 3 else chapterId


/-- `addChapter(title, htmlContent, chapterId)` (lines 568-581): write the
chapter file, push the manifest item, then insert the spine reference
directly after `toc` if present, else directly after `cover-xhtml` if
present, else push at the end. -/
def cAddChapter (st : CPacker) (title chapterId : List Char) : CPacker :=
  let fileName := stripChPre chapterId ++ (".xhtml").data
  let base :=
    { st with
      fileCounter := st.fileCounter + 1
      zip := zipFile st.zip ((("OEBPS/Text/").data) ++ fileName)
        (ZipData.doc (("chapter-").data ++ title)) ZipCompression.deflate
      manifestItems := st.manifestItems ++
        [ManifestItem.mk chapterId ((("Text/").data) ++ fileName)
          (("application/xhtml+xml").data) none] }
  let spine :=
    if (("toc").data) ∈ st.spineOrder then
      st.spineOrder.insertIdx (st.spineOrder.indexOf (("toc").data) + 1) chapterId
    else if (("cover-xhtml").data) ∈ st.spineOrder then
      st.spineOrder.insertIdx (st.spineOrder.indexOf (("cover-xhtml").data) + 1) chapterId
    else st.spineOrder ++ [chapterId]
  { base with spineOrder := spine }

/-- A processed post as collected by the Chromium orchestrator: its title and
its uniquified chapter basename. -/
structure CPostRef where
  title : List Char
  filename : List Char
deriving DecidableEq, Repr

/-- `addTableOfContents(posts)` (lines 583-591): write `Text/toc.xhtml`, push
the `toc` manifest item with the `nav` property, splice `toc` directly after
the cover if present (else unshift it), and set the toc entries from the
posts in their given order. -/
def cAddTableOfContents (st : CPacker) (posts : List CPostRef) : CPacker :=
  let base :=
    { st with
      zip := zipFile st.zip (("OEBPS/Text/toc.xhtml").data)
        (ZipData.doc (("toc").data)) ZipCompression.deflate
      manifestItems := st.manifestItems ++
        [ManifestItem.mk (("toc").data) (("Text/toc.xhtml").data)
          (("application/xhtml+xml").data) (some (("nav").data))]
      tocEntries := posts.map (fun (p : CPostRef) =>
        TocEntryC.mk p.title ((("Text/").data) ++ p.filename ++ ((".xhtml").data))) }
  let spine :=
    if (("cover-xhtml").data) ∈ st.spineOrder then
      st.spineOrder.insertIdx (st.spineOrder.indexOf (("cover-xhtml").data) + 1) (("toc").data)
    else (("toc").data) :: st.spineOrder
  { base with spineOrder := spine }

/-- `packToBlob()` (lines 610-621): add `META-INF/container.xml`,
`content.opf` and `toc.ncx`, then serialize. -/
def cFinalize (st : CPacker) : CPacker :=
  { st with
    zip :=
      zipFile (zipFile (zipFile (zipFolder st.zip (("META-INF/").data))
        (("META-INF/container.xml").data) (ZipData.doc (("container").data))
        ZipCompression.deflate)
        (("OEBPS/content.opf").data) (ZipData.doc (("opf").data))
        ZipCompression.deflate)
        (("OEBPS/toc.ncx").data) (ZipData.doc (("ncx").data))
        ZipCompression.deflate }

/-- One packer call, as an element of an arbitrary call sequence. -/
inductive COp
  | style
  | cover (fileNameInEpub mime : List Char)
  | image (fileNameInEpub mime : List Char)
  | chapter (title chapterId : List Char)
  | toc (posts : List CPostRef)
deriving DecidableEq

def cApply (st : CPacker) : COp → CPacker
  | COp.style => cAddStylesheet st
  | COp.cover f m => cAddCoverImage st f m
  | COp.image f m => cAddImageToManifest st f m
  | COp.chapter t cid => cAddChapter st t cid
  | COp.toc posts => cAddTableOfContents st posts

/-- An arbitrary sequence of packer calls starting from the constructor. -/
def cRun (ops : List COp) : CPacker := ops.foldl cApply cInit

/-! ### The content normalizer
(Chromium variant: src/Chromium/EpubGenerator.js lines 198-308;
Firefox variant: src/Firefox/kemonoEpubGenerator.js lines 169-264)

The parsed document is embedded as the list of its `<img>` elements'
`src`/`alt` attributes — the parts of the DOM the cited loops read and
write.  A fetched response is a `JsBlob` (its `type` header plus a tag
naming the bytes); the network is an oracle `List Char → Except _ JsBlob`. -/

structure ImgRef where
  src : List Char
  alt : List Char
deriving DecidableEq, Repr

structure JsBlob where
  btype : List Char
  tag : List Char
deriving DecidableEq, Repr

structure FileRef where
  path : List Char
  name : List Char
  server : List Char
deriving DecidableEq, Repr

structure PostDetail where
  id : List Char
  title : List Char
  imgs : List ImgRef
  fileRef : Option FileRef
  attachments : List FileRef
deriving DecidableEq, Repr

structure AssetInfo where
  originalUrl : List Char
  fileNameInEpub : List Char
  localPathInEpub : List Char
  blobTag : List Char
  mimeType : List Char
deriving DecidableEq, Repr

structure NormResult where
  imgs : List ImgRef
  assets : List AssetInfo
  fetched : List (List Char)
deriving DecidableEq, Repr

/-- A binary-fetch oracle: the result of `HttpClient.fetchBlob` per URL. -/
def FetchOracle := List Char → Except (List Char) JsBlob

/-- JS `url.split('.').pop()`: the segment after the last dot (the whole
string when there is no dot). -/
def splitLastDot (l : List Char) : List Char :=
  let seg := l.reverse.takeWhile (fun c => c ≠ '.')
  if seg.length = l.length then l else seg.reverse

/-- `getMimeType(blob, url)` (Chromium, lines 91-102). -/
def getMimeType (b : JsBlob) (url : List Char) : List Char :=
  if b.btype ≠ [] ∧ b.btype ≠ ("application/octet-stream").data then b.btype
  else
    let ext := lowerL (splitLastDot url)
    if ext = ("jpg").data ∨ ext = ("jpeg").data then ("image/jpeg").data
    else if ext = ("png").data then ("image/png").data
    else if ext = ("gif").data then ("image/gif").data
    else if ext = ("svg").data then ("image/svg+xml").data
    else if ext = ("webp").data then ("image/webp").data
    else ("application/octet-stream").data

/-- `processImageBlob(blob, url)` (Chromium, lines 104-118): pass through the
archive-safe formats, re-encode everything else as PNG.  (The canvas
re-encode is embedded as a total tagging step; a decode failure in the JS is
raised inside the same per-image `try` as the fetch and is treated alike.) -/
def processImageBlob (b : JsBlob) (url : List Char) : JsBlob × List Char × List Char :=
  let mime := getMimeType b url
  if mime = ("image/jpeg").data then (b, mime, ("jpg").data)
  else if mime = ("image/png").data then (b, mime, ("png").data)
  else if mime = ("image/gif").data then (b, mime, ("gif").data)
  else if mime = ("image/svg+xml").data then (b, mime, ("svg").data)
  else (JsBlob.mk (("image/png").data) (b.tag ++ (("#png").data)),
    ("image/png").data, ("png").data)

/-- Drop everything from the first `?` or `#` on (the `origin + pathname`
canonicalization of `_normalizeUrl`). -/
def stripQueryFragment (l : List Char) : List Char :=
  l.takeWhile (fun c => c ≠ '#' ∧ c ≠ '?')

/-- `_normalizeUrl` (Chromium, lines 249-276): protocol-relative, `/data/`,
root-relative and bare references resolve against the fixed bases; URLs with
a query or fragment are canonicalized to origin + pathname. -/
def chromiumNormalizeUrl (src : List Char) : List Char :=
  let abs :=
    if litStarts (("//").data) src then (("https:").data) ++ src
    else if litStarts (("/").data) src then
      if litStarts (("/data/").data) src then (("https://kemono.cr/data").data) ++ src
      else (("https://kemono.cr").data) ++ src
    else if litStarts (("http").data) src then src
    else (("https://kemono.cr").data) ++ ('/' :: src)
  if ('#' ∈ abs) ∨ ('?' ∈ abs) then stripQueryFragment abs else abs

/-- The first-string-occurrence removal of JS `String.replace(str, "")`,
used to build the partial-path dedup keys of `_rewriteAllImageReferences`. -/
def removeFirst (pat : List Char) : List Char → List Char
  | [] => []
  | c :: t => if litStarts pat (c :: t) then (c :: t).drop pat.length
      else c :: removeFirst pat t

/-- The partial-path key `_rewriteAllImageReferences` registers alongside the
absolute URL. -/
def chromiumPartialPath (u : List Char) : List Char :=
  removeFirst (("kemono.cr/data").data) (removeFirst (("https://kemono.cr").data) u)

/-- Lookup in the rewrite map built by `_rewriteAllImageReferences`: later
`Map.set` calls win, so the last matching asset provides the value. -/
def urlMapLookup (assets : List AssetInfo) (key : List Char) : Option (List Char) :=
  assets.reverse.findSome? (fun a =>
    if a.originalUrl = key ∨ (chromiumPartialPath a.originalUrl ≠ [] ∧
        chromiumPartialPath a.originalUrl = key) then
      some a.localPathInEpub
    else none)

/-- The `rewriteAttr` step of `_rewriteAllImageReferences` applied to an
`<img>`'s `src`. -/
def chromiumRewriteImg (assets : List AssetInfo) (img : ImgRef) : ImgRef :=
  if img.src = [] then img
  else
    let absVal := chromiumNormalizeUrl img.src
    match urlMapLookup assets absVal with
    | some lp => ImgRef.mk lp img.alt
    | none =>
      match urlMapLookup assets img.src with
      | some lp => ImgRef.mk lp img.alt
      | none => img

/-- The inline-image loop of the Chromium `processPostImagesAndContent`
(lines 207-234): every `<img>` with a `src` is fetched — there is no dedup —
and on success rewritten to its own `Images/inline_<post>_<i>.<ext>` entry;
on a fetch failure the `alt` text is annotated and the reference kept. -/
def chromiumImgStep (fetchBlob : FetchOracle) (postId : List Char)
    (acc : NormResult) (ip : Nat × ImgRef) : NormResult :=
  let (i, img) := ip
  if img.src = [] then
    { acc with imgs := acc.imgs ++ [img] }
  else
    let absoluteSrc := chromiumNormalizeUrl img.src
    match fetchBlob absoluteSrc with
    | Except.ok rawBlob =>
      let (b2, mime, ext) := processImageBlob rawBlob absoluteSrc
      let fileNameInEpub := sanitizeFilename
        ((("inline_").data) ++ postId ++ ('_' :: natRepr i) ++ ('.' :: ext))
      { imgs := acc.imgs ++ [ImgRef.mk ((("../Images/").data) ++ fileNameInEpub) img.alt]
        assets := acc.assets ++ [AssetInfo.mk absoluteSrc fileNameInEpub
          ((("Images/").data) ++ fileNameInEpub) b2.tag mime]
        fetched := acc.fetched ++ [absoluteSrc] }
    | Except.error _ =>
      { acc with
        imgs := acc.imgs ++ [ImgRef.mk img.src
          (img.alt ++ ((" (Image not available)").data))]
        fetched := acc.fetched ++ [absoluteSrc] }

/-- `processPostImagesAndContent` (Chromium variant, lines 198-247): the
inline-image loop followed by the rewrite pass over the document's images. -/
def chromiumProcessPost (fetchBlob : FetchOracle) (post : PostDetail) : NormResult :=
  let r := post.imgs.enum.foldl
    (chromiumImgStep fetchBlob post.id) (NormResult.mk [] [] [])
  { r with imgs := r.imgs.map (chromiumRewriteImg r.assets) }

/-- `isImageExtension` (Firefox, lines 65-69). -/
def isImageExtension (name : List Char) : Bool :=
  name ≠ [] ∧
    (lowerL (splitLastDot name) = ("jpg").data ∨
     lowerL (splitLastDot name) = ("jpeg").data ∨
     lowerL (splitLastDot name) = ("png").data ∨
     lowerL (splitLastDot name) = ("gif").data ∨
     lowerL (splitLastDot name) = ("webp").data ∨
     lowerL (splitLastDot name) = ("bmp").data ∨
     lowerL (splitLastDot name) = ("svg").data)

/-- URL resolution of the Firefox inline-image loop (lines 181-188): only
protocol-relative and root-relative references are resolved; everything else
is used as-is. -/
def firefoxResolveSrc (src : List Char) : List Char :=
  if litStarts (("/").data) src then
    if litStarts (("//").data) src then (("https:").data) ++ src
    else (("https://kemono.su").data) ++ src
  else src

/-- One step of the Firefox inline-image loop (lines 176-214): a reference
whose resolved URL already has an `AssetDescriptor` reuses it without
fetching; otherwise the URL is fetched, and on failure the `alt` text is
annotated with the `(Image not available: …)` marker. -/
def firefoxImgStep (fetchBlob : FetchOracle) (postId : List Char)
    (acc : NormResult) (ip : Nat × ImgRef) : NormResult :=
  let (i, img) := ip
  if img.src = [] then
    { acc with imgs := acc.imgs ++ [img] }
  else
    let absoluteSrc := firefoxResolveSrc img.src
    match acc.assets.find? (fun a => a.originalUrl = absoluteSrc) with
    | some existing =>
      { acc with imgs := acc.imgs ++
          [ImgRef.mk ((("../Images/").data) ++ existing.fileNameInEpub) img.alt] }
    | none =>
      match fetchBlob absoluteSrc with
      | Except.ok b =>
        let ext := if splitLastDot img.src = [] then ("jpg").data
          else lowerL (splitLastDot img.src)
        let fileNameInEpub := sanitizeFilename
          ((("content_img_").data) ++ postId ++ ('_' :: natRepr i) ++ ('.' :: ext))
        let mime := if b.btype ≠ [] then b.btype
          else (("image/").data) ++ (if ext = ("jpg").data then ("jpeg").data else ext)
        { imgs := acc.imgs ++
            [ImgRef.mk ((("../Images/").data) ++ fileNameInEpub) img.alt]
          assets := acc.assets ++ [AssetInfo.mk absoluteSrc fileNameInEpub
            ((("Images/").data) ++ fileNameInEpub) b.tag mime]
          fetched := acc.fetched ++ [absoluteSrc] }
      | Except.error _ =>
        { acc with
          imgs := acc.imgs ++ [ImgRef.mk img.src
            (img.alt ++ ((" (Image not available: ").data) ++ img.src ++ [')'])]
          fetched := acc.fetched ++ [absoluteSrc] }

/-- The `post.file` / attachment phases of the Firefox
`processPostImagesAndContent` (lines 216-262): image files are fetched and
packaged under their own names unless an asset with the same resolved URL
already exists; fetch failures are skipped. -/
def firefoxFileStep (fetchBlob : FetchOracle) (acc : NormResult)
    (f : FileRef) : NormResult :=
  if f.path ≠ [] ∧ f.name ≠ [] ∧ isImageExtension f.name then
    let server := if f.server = [] then ("https://kemono.su").data else f.server
    let url := server ++ f.path
    match acc.assets.find? (fun a => a.originalUrl = url) with
    | some _ => acc
    | none =>
      match fetchBlob url with
      | Except.ok b =>
        let fileNameInEpub := sanitizeFilename f.name
        { acc with
          assets := acc.assets ++ [AssetInfo.mk url fileNameInEpub
            ((("Images/").data) ++ fileNameInEpub) b.tag b.btype]
          fetched := acc.fetched ++ [url] }
      | Except.error _ => { acc with fetched := acc.fetched ++ [url] }
  else acc

/-- `processPostImagesAndContent` (Firefox variant, lines 169-264). -/
def firefoxProcessPost (fetchBlob : FetchOracle) (post : PostDetail) : NormResult :=
  let r1 := post.imgs.enum.foldl (firefoxImgStep fetchBlob post.id)
    (NormResult.mk [] [] [])
  let r2 := match post.fileRef with
    | some f => firefoxFileStep fetchBlob r1 f
    | none => r1
  post.attachments.foldl (firefoxFileStep fetchBlob) r2

/-! ### The EPUB packer, Firefox variant
(src/Firefox/kemonoEpubGenerator.js lines 268-561) -/

structure FTocEntry where
  title : List Char
  href : List Char
  navId : List Char
  playOrder : Nat
deriving DecidableEq, Repr

structure FPacker where
  manifestItems : List ManifestItem
  spineOrder : List (List Char)
  tocEntries : List FTocEntry
  fileCounter : Nat
  coverImageId : Option (List Char)
  zip : List ZipEntry
deriving Repr

/-- The Firefox `EpubPacker` constructor (lines 270-289): it creates the
`OEBPS` folder tree but — unlike the Chromium constructor — does *not* add
the mimetype entry; that only happens inside `packToBlob`. -/
def fInit : FPacker where
  manifestItems := []
  spineOrder := []
  tocEntries := []
  fileCounter := 0
  coverImageId := none
  zip :=
    zipFolder (zipFolder (zipFolder (zipFolder [] (("OEBPS/").data))
      (("OEBPS/Text/").data)) (("OEBPS/Images/").data)) (("OEBPS/Styles/").data)

/-- `addMimetype` (lines 291-295): called from `packToBlob`. -/
def fAddMimetype (st : FPacker) : FPacker :=
  { st with
    zip := zipFile st.zip (("mimetype").data)
      (ZipData.text (("application/epub+zip").data)) ZipCompression.store }

def fAddStylesheet (st : FPacker) : FPacker :=
  { st with
    zip := zipFile st.zip (("OEBPS/Styles/stylesheet.css").data)
      (ZipData.doc (("css").data)) ZipCompression.deflate
    manifestItems := st.manifestItems ++
      [ManifestItem.mk (("css").data) (("Styles/stylesheet.css").data)
        (("text/css").data) none] }

/-- `addCoverImage` (lines 313-348): registers the image and the cover page
and unshifts `cover-xhtml` onto the spine. -/
def fAddCoverImage (st : FPacker) (fileNameInEpub mime : List Char) : FPacker :=
  { st with
    zip := zipFile
      (zipFile st.zip ((("OEBPS/Images/").data) ++ fileNameInEpub)
        (ZipData.payload fileNameInEpub) ZipCompression.deflate)
      (("OEBPS/Text/cover.xhtml").data) (ZipData.doc (("cover").data))
      ZipCompression.deflate
    manifestItems := st.manifestItems ++
      [ManifestItem.mk (("cover-image").data) ((("Images/").data) ++ fileNameInEpub)
        mime (some (("cover-image").data)),
       ManifestItem.mk (("cover-xhtml").data) (("Text/cover.xhtml").data)
        (("application/xhtml+xml").data) none]
    coverImageId := some (("cover-image").data)
    spineOrder := (("cover-xhtml").data) :: st.spineOrder }

/-- `addChapter(title, htmlContent, postId)` (lines 356-387): the chapter id
is `chapter-<postId>` (falling back to the file counter), the spine reference
is pushed at the end, and a toc entry is pushed in the same order. -/
def fAddChapter (st : FPacker) (title postId : List Char) : FPacker :=
  let counter := st.fileCounter + 1
  let chapterId := (("chapter-").data) ++
    (if postId = [] then natRepr counter else postId)
  let fileName := chapterId ++ ((".xhtml").data)
  { st with
    fileCounter := counter
    zip := zipFile st.zip ((("OEBPS/Text/").data) ++ fileName)
      (ZipData.doc ((("chapter-").data) ++ title)) ZipCompression.deflate
    manifestItems := st.manifestItems ++
      [ManifestItem.mk chapterId ((("Text/").data) ++ fileName)
        (("application/xhtml+xml").data) none]
    spineOrder := st.spineOrder ++ [chapterId]
    tocEntries := st.tocEntries ++
      [FTocEntry.mk (stripScriptElements title) ((("Text/").data) ++ fileName)
        ((("nav-").data) ++ chapterId) (st.tocEntries.length + 1)] }

/-- `addTableOfContentsPage` (lines 392-425): only when more than one chapter
exists, write the contents page, insert it into the spine directly after
the cover (at position 0 when there is no cover), and unshift its toc
entry. -/
def fAddTableOfContentsPage (st : FPacker) : FPacker :=
  if 1 < st.tocEntries.length then
    let insertIndex :=
      if (("cover-xhtml").data) ∈ st.spineOrder then
        st.spineOrder.indexOf (("cover-xhtml").data) + 1
      else 0
    { st with
      zip := zipFile st.zip (("OEBPS/Text/toc_page.xhtml").data)
        (ZipData.doc (("toc-page").data)) ZipCompression.deflate
      manifestItems := st.manifestItems ++
        [ManifestItem.mk (("toc-page").data) (("Text/toc_page.xhtml").data)
          (("application/xhtml+xml").data) (some (("nav").data))]
      spineOrder := st.spineOrder.insertIdx insertIndex (("toc-page").data)
      tocEntries := FTocEntry.mk (("Table of Contents").data)
        (("Text/toc_page.xhtml").data) (("nav-toc-page").data) 0 :: st.tocEntries }
  else st

/-- `addImageToManifest` (lines 428-436): no dedup — the id is derived from
the file name's first dot-segment and the entry is pushed unconditionally. -/
def fAddImageToManifest (st : FPacker) (fileNameInEpub localPathInEpub mime : List Char) :
    FPacker :=
  let imageId := (("img-").data) ++ fileNameInEpub.takeWhile (fun c => c ≠ '.')
  { st with
    zip := zipFile st.zip ((("OEBPS/Images/").data) ++ fileNameInEpub)
      (ZipData.payload fileNameInEpub) ZipCompression.deflate
    manifestItems := st.manifestItems ++
      [ManifestItem.mk imageId localPathInEpub mime none] }

/-- `packToBlob` (lines 541-560): `addMimetype` first (but the folder entries
of the constructor already precede it), then `container.xml`, `content.opf`,
`toc.ncx` and the EPUB3 `toc.xhtml`. -/
def fFinalize (st : FPacker) : FPacker :=
  let st1 := fAddMimetype st
  { st1 with
    zip :=
      zipFile (zipFile (zipFile (zipFile (zipFolder st1.zip (("META-INF/").data))
        (("META-INF/container.xml").data) (ZipData.doc (("container").data))
        ZipCompression.deflate)
        (("OEBPS/content.opf").data) (ZipData.doc (("opf").data))
        ZipCompression.deflate)
        (("OEBPS/toc.ncx").data) (ZipData.doc (("ncx").data))
        ZipCompression.deflate)
        (("OEBPS/toc.xhtml").data) (ZipData.doc (("nav").data))
        ZipCompression.deflate }

/-- One Firefox packer call, as an element of an arbitrary call sequence. -/
inductive FOp
  | style
  | cover (fileNameInEpub mime : List Char)
  | image (fileNameInEpub localPathInEpub mime : List Char)
  | chapter (title postId : List Char)
  | tocPage
deriving DecidableEq

def fApply (st : FPacker) : FOp → FPacker
  | FOp.style => fAddStylesheet st
  | FOp.cover f m => fAddCoverImage st f m
  | FOp.image f lp m => fAddImageToManifest st f lp m
  | FOp.chapter t pid => fAddChapter st t pid
  | FOp.tocPage => fAddTableOfContentsPage st

/-- An arbitrary sequence of Firefox packer calls from the constructor. -/
def fRun (ops : List FOp) : FPacker := ops.foldl fApply fInit

/-! ### The orchestrators (`generateKemonoEpub`)
(Chromium: src/Chromium/EpubGenerator.js lines 375-504;
Firefox: src/Firefox/kemonoEpubGenerator.js lines 610-747)

The post-detail endpoint is an oracle `List Char → Except _ PostDetail`; the
detail cache is omitted because the oracle is a pure function, so caching
cannot change any value the claims observe. -/

structure PostStub where
  id : List Char
  title : List Char
deriving DecidableEq, Repr

def DetailOracle := List Char → Except (List Char) PostDetail

/-- The per-post loop of the Chromium orchestrator (lines 442-490): fetch the
detail (note: *not* wrapped in a `try` — a fetch error propagates out of the
whole generation, making the `if (!post) continue` skip branch unreachable),
normalize, register the images, allocate the unique chapter basename, add the
chapter. -/
def chromiumGenerateLoop (fetchPost : DetailOracle) (fetchBlob : FetchOracle) :
    Nat → List (List Char) → List CPostRef → CPacker → List PostStub →
      Except (List Char) (CPacker × List CPostRef)
  | _, _, acc, st, [] => Except.ok (st, acc)
  | i, used, acc, st, stub :: rest =>
    match fetchPost stub.id with
    | Except.error e => Except.error e
    | Except.ok post =>
      let res := chromiumProcessPost fetchBlob post
      let st1 := res.assets.foldl
        (fun s a => cAddImageToManifest s a.fileNameInEpub a.mimeType) st
      let base := sanitizeBasenameForXhtmlStrict
        (if post.title = [] then (("Chapter_").data) ++ natRepr i else post.title)
      let fn := uniquifyFilename used base
      let title := if post.title = [] then ("Untitled Post").data else post.title
      let st2 := cAddChapter st1 title ((("ch-").data) ++ fn)
      chromiumGenerateLoop fetchPost fetchBlob (i + 1) (lowerL fn :: used)
        (acc ++ [CPostRef.mk title fn]) st2 rest

/-- `generateKemonoEpub` (Chromium variant): stylesheet, optional cover
(failures skipped), the per-post loop, the contents page whenever at least
one post was processed, and `packToBlob`. -/
def chromiumGenerate (fetchPost : DetailOracle) (fetchBlob : FetchOracle)
    (coverUrl : Option (List Char)) (stubs : List PostStub) :
    Except (List Char) CPacker :=
  let st0 := cAddStylesheet cInit
  let st1 :=
    match coverUrl with
    | none => st0
    | some url =>
      match fetchBlob url with
      | Except.error _ => st0
      | Except.ok b =>
        let (_, mime, ext) := processImageBlob b url
        cAddCoverImage st0 ((("cover.").data) ++ ext) mime
  match chromiumGenerateLoop fetchPost fetchBlob 0 [] [] st1 stubs with
  | Except.error e => Except.error e
  | Except.ok (st, acc) =>
    let st2 := if acc.length > 0 then cAddTableOfContents st acc else st
    Except.ok (cFinalize st2)

/-- Result of a Firefox generation run: the sealed packer, the progress
percentage after the loop, the number of posts for which the per-post
progress fraction was added (it is added in the `catch` branch too), and the
ids of posts whose processing failed. -/
structure FGenResult where
  packer : FPacker
  progressAfterLoop : Rat
  advancedPosts : Nat
  failedIds : List (List Char)
deriving Repr

/-- The per-post loop of the Firefox orchestrator (lines 688-729): the whole
body is inside `try { … } catch { … }`, and the `catch` still advances
`currentProgress` by the per-post fraction before continuing with the next
post. -/
def firefoxGenerateLoop (fetchPost : DetailOracle) (fetchBlob : FetchOracle)
    (fraction : Rat) :
    Rat → Nat → List (List Char) → FPacker → List PostStub →
      FPacker × Rat × Nat × List (List Char)
  | progress, adv, failed, st, [] => (st, progress, adv, failed)
  | progress, adv, failed, st, stub :: rest =>
    match fetchPost stub.id with
    | Except.error _ =>
      firefoxGenerateLoop fetchPost fetchBlob fraction (progress + fraction)
        (adv + 1) (failed ++ [stub.id]) st rest
    | Except.ok post =>
      let res := firefoxProcessPost fetchBlob post
      let st1 := res.assets.foldl
        (fun s a => fAddImageToManifest s a.fileNameInEpub a.localPathInEpub a.mimeType) st
      let title := if post.title = [] then ("Untitled Post").data else post.title
      let st2 := fAddChapter st1 title stub.id
      firefoxGenerateLoop fetchPost fetchBlob fraction (progress + fraction)
        (adv + 1) failed st2 rest

/-- `generateKemonoEpub` (Firefox variant): stylesheet, optional cover
(failures skipped), the guarded per-post loop, the contents page when more
than one chapter was added, and `packToBlob`.  The function is total: no
fetch or normalization failure escapes the loop. -/
def firefoxGenerate (fetchPost : DetailOracle) (fetchBlob : FetchOracle)
    (coverUrl : Option (List Char)) (stubs : List PostStub) : FGenResult :=
  let st0 := fAddStylesheet fInit
  let st1 :=
    match coverUrl with
    | none => st0
    | some url =>
      match fetchBlob url with
      | Except.error _ => st0
      | Except.ok _ =>
        let ext := if splitLastDot url = [] then ("jpeg").data
          else lowerL (splitLastDot url)
        let mime := (("image/").data) ++
          (if ext = ("jpg").data then ("jpeg").data else ext)
        fAddCoverImage st0 ((("cover.").data) ++ ext) mime
  let fraction : Rat := if stubs.length = 0 then 0 else (75 : Rat) / stubs.length
  let (st2, progress, adv, failed) :=
    firefoxGenerateLoop fetchPost fetchBlob fraction 20 0 [] st1 stubs
  let st3 := if 1 < st2.tocEntries.length then fAddTableOfContentsPage st2 else st2
  FGenResult.mk (fFinalize st3) progress adv failed

/-! ### List and zip helper lemmas for the packer invariants -/

theorem mem_insertIdx_of_mem {α : Type} {a : α} :
    ∀ {l : List α} (n : Nat) (x : α), a ∈ l → a ∈ l.insertIdx n x := by
  intro l
  induction l with
  | nil => intro n x h; simp at h
  | cons b t ih =>
    intro n x h
    cases n with
    | zero =>
      rw [List.insertIdx_zero]
      exact List.mem_cons_of_mem _ h
    | succ n =>
      rw [List.insertIdx_succ_cons]
      rcases List.mem_cons.mp h with rfl | h
      · exact List.mem_cons_self _ _
      · exact List.mem_cons_of_mem _ (ih n x h)

theorem eq_or_mem_of_mem_insertIdx {α : Type} {a x : α} :
    ∀ {l : List α} {n : Nat}, a ∈ l.insertIdx n x → a = x ∨ a ∈ l := by
  intro l
  induction l with
  | nil =>
    intro n h
    cases n with
    | zero => simp [List.insertIdx] at h; exact Or.inl h
    | succ n => simp [List.insertIdx] at h
  | cons b t ih =>
    intro n h
    cases n with
    | zero =>
      rw [List.insertIdx_zero, List.mem_cons] at h
      rcases h with rfl | h
      · exact Or.inl rfl
      · exact Or.inr h
    | succ n =>
      rw [List.insertIdx_succ_cons, List.mem_cons] at h
      rcases h with rfl | h
      · exact Or.inr (List.mem_cons_self _ _)
      · rcases ih h with h | h
        · exact Or.inl h
        · exact Or.inr (List.mem_cons_of_mem _ h)

theorem head?_insertIdx_succ {α : Type} (b : α) (l : List α) (n : Nat) (x : α) :
    ((b :: l).insertIdx (n + 1) x).head? = some b := by
  rw [List.insertIdx_succ_cons]
  rfl

theorem head?_append_of_ne_nil' {α : Type} {l : List α} (w : List α) (h : l ≠ []) :
    (l ++ w).head? = l.head? := by
  cases l with
  | nil => exact absurd rfl h
  | cons a t => rfl

theorem zipFile_head {z : List ZipEntry} {e : ZipEntry} (path : List Char)
    (d : ZipData) (comp : ZipCompression) (hhead : z.head? = some e)
    (hne : path ≠ e.path) : (zipFile z path d comp).head? = some e := by
  cases z with
  | nil => simp at hhead
  | cons a t =>
    have ha : a = e := by simpa using hhead
    subst ha
    unfold zipFile
    split
    · simp only [List.map_cons]
      rw [if_neg (fun hc => hne hc.symm)]
      rfl
    · rfl

theorem zipFolder_head {z : List ZipEntry} {e : ZipEntry} (path : List Char)
    (hhead : z.head? = some e) (hne : path ≠ e.path) :
    (zipFolder z path).head? = some e := by
  cases z with
  | nil => simp at hhead
  | cons a t =>
    have ha : a = e := by simpa using hhead
    subst ha
    unfold zipFolder
    split
    · rfl
    · rfl

theorem zipFile_mem {z : List ZipEntry} {e : ZipEntry} (path : List Char)
    (d : ZipData) (comp : ZipCompression) (hmem : e ∈ z)
    (hne : e.path ≠ path) : e ∈ zipFile z path d comp := by
  unfold zipFile
  split
  · rw [List.mem_map]
    refine ⟨e, hmem, ?_⟩
    rw [if_neg hne]
  · exact List.mem_append_left _ hmem

theorem zipFolder_mem {z : List ZipEntry} {e : ZipEntry} (path : List Char)
    (hmem : e ∈ z) : e ∈ zipFolder z path := by
  unfold zipFolder
  split
  · exact hmem
  · exact List.mem_append_left _ hmem

theorem zipFile_fresh_mem {z : List ZipEntry} (path : List Char) (d : ZipData)
    (comp : ZipCompression) (hfresh : ∀ e ∈ z, e.path ≠ path) :
    ZipEntry.mk path d comp ∈ zipFile z path d comp := by
  unfold zipFile
  rw [if_neg (by simp; intro e he; exact hfresh e he)]
  exact List.mem_append_right _ (by simp)

theorem zipFile_paths {z : List ZipEntry} (path : List Char) (d : ZipData)
    (comp : ZipCompression) {e : ZipEntry} (he : e ∈ zipFile z path d comp) :
    e.path = path ∨ e ∈ z := by
  unfold zipFile at he
  split at he
  · rw [List.mem_map] at he
    obtain ⟨x, hx, hxe⟩ := he
    by_cases hp : x.path = path
    · rw [if_pos hp] at hxe
      exact Or.inl (by rw [← hxe])
    · rw [if_neg hp] at hxe
      exact Or.inr (hxe ▸ hx)
  · rcases List.mem_append.mp he with h | h
    · exact Or.inr h
    · simp at h
      exact Or.inl (by rw [h])

theorem zipFolder_paths {z : List ZipEntry} (path : List Char) {e : ZipEntry}
    (he : e ∈ zipFolder z path) : e.path = path ∨ e ∈ z := by
  unfold zipFolder at he
  split at he
  · exact Or.inr he
  · rcases List.mem_append.mp he with h | h
    · exact Or.inr h
    · simp at h
      exact Or.inl (by rw [h])

/-! ### The cover-first invariant (claim C6) -/

/-- Once the cover page is in the spine, it sits at position 0. -/
def coverInvC (st : CPacker) : Prop :=
  (("cover-xhtml").data) ∈ st.spineOrder →
    st.spineOrder.head? = some (("cover-xhtml").data)

theorem cAddChapter_spine (st : CPacker) (t cid : List Char) :
    (cAddChapter st t cid).spineOrder =
      if (("toc").data) ∈ st.spineOrder then
        st.spineOrder.insertIdx (st.spineOrder.indexOf (("toc").data) + 1) cid
      else if (("cover-xhtml").data) ∈ st.spineOrder then
        st.spineOrder.insertIdx (st.spineOrder.indexOf (("cover-xhtml").data) + 1) cid
      else st.spineOrder ++ [cid] := rfl

theorem cAddTableOfContents_spine (st : CPacker) (posts : List CPostRef) :
    (cAddTableOfContents st posts).spineOrder =
      if (("cover-xhtml").data) ∈ st.spineOrder then
        st.spineOrder.insertIdx
          (st.spineOrder.indexOf (("cover-xhtml").data) + 1) (("toc").data)
      else (("toc").data) :: st.spineOrder := rfl

theorem cApply_mem_spine {st : CPacker} {x : List Char} (op : COp)
    (h : x ∈ st.spineOrder) : x ∈ (cApply st op).spineOrder := by
  cases op with
  | style => exact h
  | image f m =>
    show x ∈ (cAddImageToManifest st f m).spineOrder
    unfold cAddImageToManifest
    split
    · exact h
    · exact h
  | cover f m => exact List.mem_cons_of_mem _ h
  | chapter t cid =>
    simp only [cApply]
    rw [cAddChapter_spine]
    split
    · exact mem_insertIdx_of_mem _ _ h
    · split
      · exact mem_insertIdx_of_mem _ _ h
      · exact List.mem_append_left _ h
  | toc posts =>
    simp only [cApply]
    rw [cAddTableOfContents_spine]
    split
    · exact mem_insertIdx_of_mem _ _ h
    · exact List.mem_cons_of_mem _ h

theorem coverInvC_head {st : CPacker} (hinv : coverInvC st)
    (hmem : (("cover-xhtml").data) ∈ st.spineOrder) :
    ∃ rest, st.spineOrder = (("cover-xhtml").data) :: rest := by
  have := hinv hmem
  cases hs : st.spineOrder with
  | nil => rw [hs] at this; simp at this
  | cons a rest =>
    rw [hs] at this
    simp at this
    exact ⟨rest, by rw [this]⟩

theorem cApply_coverInv {st : CPacker} (op : COp)
    (hop : ∀ t cid, op = COp.chapter t cid → cid ≠ (("cover-xhtml").data))
    (hinv : coverInvC st) : coverInvC (cApply st op) := by
  cases op with
  | style => exact hinv
  | image f m =>
    show coverInvC (cAddImageToManifest st f m)
    unfold coverInvC cAddImageToManifest
    split
    · exact hinv
    · exact hinv
  | cover f m =>
    intro _
    rfl
  | chapter t cid =>
    have hcid : cid ≠ (("cover-xhtml").data) := hop t cid rfl
    intro hmem
    simp only [cApply] at hmem ⊢
    rw [cAddChapter_spine] at hmem ⊢
    have hcov : (("cover-xhtml").data) ∈ st.spineOrder := by
      split at hmem
      · rcases eq_or_mem_of_mem_insertIdx hmem with h | h
        · exact absurd h.symm hcid
        · exact h
      · split at hmem
        · rcases eq_or_mem_of_mem_insertIdx hmem with h | h
          · exact absurd h.symm hcid
          · exact h
        · rcases List.mem_append.mp hmem with h | h
          · exact h
          · simp at h
            exact absurd h.symm hcid
    obtain ⟨rest, hrest⟩ := coverInvC_head hinv hcov
    rw [hrest]
    split
    · exact head?_insertIdx_succ _ _ _ _
    · split
      · exact head?_insertIdx_succ _ _ _ _
      · rfl
  | toc posts =>
    intro hmem
    simp only [cApply] at hmem ⊢
    rw [cAddTableOfContents_spine] at hmem ⊢
    have hcov : (("cover-xhtml").data) ∈ st.spineOrder := by
      split at hmem
      · rename_i hc
        exact hc
      · rcases List.mem_cons.mp hmem with h | h
        · exact absurd h (by decide)
        · exact h
    obtain ⟨rest, hrest⟩ := coverInvC_head hinv hcov
    rw [hrest]
    split
    · exact head?_insertIdx_succ _ _ _ _
    · rename_i hno
      exact absurd (List.mem_cons_self _ _) hno

theorem chapterPre_ne_cover (x : List Char) :
    (("chapter-").data) ++ x ≠ (("cover-xhtml").data) := by
  intro h
  have h' : 'c' :: 'h' :: 'a' :: 'p' :: 't' :: 'e' :: 'r' :: '-' :: x =
      (("cover-xhtml").data) := h
  injection h' with h1 h2
  injection h2 with h3 h4
  exact absurd h3 (by decide)

/-- Once the cover page is in the Firefox spine, it sits at position 0. -/
def coverInvF (st : FPacker) : Prop :=
  (("cover-xhtml").data) ∈ st.spineOrder →
    st.spineOrder.head? = some (("cover-xhtml").data)

theorem fApply_mem_spine {st : FPacker} {x : List Char} (op : FOp)
    (h : x ∈ st.spineOrder) : x ∈ (fApply st op).spineOrder := by
  cases op with
  | style => exact h
  | image f lp m => exact h
  | cover f m => exact List.mem_cons_of_mem _ h
  | chapter t pid => exact List.mem_append_left _ h
  | tocPage =>
    show x ∈ (fAddTableOfContentsPage st).spineOrder
    unfold fAddTableOfContentsPage
    split
    · exact mem_insertIdx_of_mem _ _ h
    · exact h

theorem coverInvF_head {st : FPacker} (hinv : coverInvF st)
    (hmem : (("cover-xhtml").data) ∈ st.spineOrder) :
    ∃ rest, st.spineOrder = (("cover-xhtml").data) :: rest := by
  have := hinv hmem
  cases hs : st.spineOrder with
  | nil => rw [hs] at this; simp at this
  | cons a rest =>
    rw [hs] at this
    simp at this
    exact ⟨rest, by rw [this]⟩

theorem fApply_coverInv {st : FPacker} (op : FOp) (hinv : coverInvF st) :
    coverInvF (fApply st op) := by
  cases op with
  | style => exact hinv
  | image f lp m => exact hinv
  | cover f m => intro _; rfl
  | chapter t pid =>
    intro hmem
    show ((st.spineOrder ++ [_]).head? = _)
    rcases List.mem_append.mp hmem with h | h
    · obtain ⟨rest, hrest⟩ := coverInvF_head hinv h
      rw [hrest]
      rfl
    · have h2 : (("cover-xhtml").data) =
          (("chapter-").data) ++ (if pid = [] then natRepr (st.fileCounter + 1) else pid) := by
        simpa using h
      exact absurd h2.symm (chapterPre_ne_cover _)
  | tocPage =>
    intro hmem
    simp only [fApply] at hmem ⊢
    unfold fAddTableOfContentsPage at hmem ⊢
    by_cases htoc : 1 < st.tocEntries.length
    · rw [if_pos htoc] at hmem ⊢
      simp only at hmem ⊢
      by_cases hcov : (("cover-xhtml").data) ∈ st.spineOrder
      · rw [if_pos hcov] at hmem ⊢
        obtain ⟨rest, hrest⟩ := coverInvF_head hinv hcov
        rw [hrest]
        exact head?_insertIdx_succ _ _ _ _
      · rw [if_neg hcov] at hmem ⊢
        rw [List.insertIdx_zero] at hmem
        rcases List.mem_cons.mp hmem with h | h
        · exact absurd h (by decide)
        · exact absurd h hcov
    · rw [if_neg htoc] at hmem ⊢
      exact hinv hmem

def isCoverOpC : COp → Bool
  | COp.cover _ _ => true
  | _ => false

def isCoverOpF : FOp → Bool
  | FOp.cover _ _ => true
  | _ => false

theorem cFold_coverInv :
    ∀ (ops : List COp) (st : CPacker),
      (∀ t cid, COp.chapter t cid ∈ ops → cid ≠ (("cover-xhtml").data)) →
      coverInvC st → (("cover-xhtml").data) ∈ st.spineOrder →
      coverInvC (ops.foldl cApply st) ∧
        (("cover-xhtml").data) ∈ (ops.foldl cApply st).spineOrder := by
  intro ops
  induction ops with
  | nil => intro st _ hinv hmem; exact ⟨hinv, hmem⟩
  | cons op rest ih =>
    intro st hops hinv hmem
    rw [List.foldl_cons]
    exact ih (cApply st op)
      (fun t cid hc => hops t cid (List.mem_cons_of_mem _ hc))
      (cApply_coverInv op (fun t cid he => hops t cid (he ▸ List.mem_cons_self _ _)) hinv)
      (cApply_mem_spine op hmem)

theorem fFold_coverInv :
    ∀ (ops : List FOp) (st : FPacker),
      coverInvF st → (("cover-xhtml").data) ∈ st.spineOrder →
      coverInvF (ops.foldl fApply st) ∧
        (("cover-xhtml").data) ∈ (ops.foldl fApply st).spineOrder := by
  intro ops
  induction ops with
  | nil => intro st hinv hmem; exact ⟨hinv, hmem⟩
  | cons op rest ih =>
    intro st hinv hmem
    rw [List.foldl_cons]
    exact ih (fApply st op) (fApply_coverInv op hinv) (fApply_mem_spine op hmem)

theorem cFold_coverInv_weak :
    ∀ (ops : List COp) (st : CPacker),
      (∀ t cid, COp.chapter t cid ∈ ops → cid ≠ (("cover-xhtml").data)) →
      coverInvC st → coverInvC (ops.foldl cApply st) := by
  intro ops
  induction ops with
  | nil => intro st _ hinv; exact hinv
  | cons op rest ih =>
    intro st hops hinv
    rw [List.foldl_cons]
    exact ih (cApply st op)
      (fun t cid hc => hops t cid (List.mem_cons_of_mem _ hc))
      (cApply_coverInv op (fun t cid he => hops t cid (he ▸ List.mem_cons_self _ _)) hinv)

/-- C6: in both packers, whenever `addCoverImage` is called exactly once in an
arbitrary sequence of packer calls — before, between, or after any chapter or
contents-page calls — the cover page occupies spine position 0 of the final
spine.  (For the Chromium packer the chapter ids supplied by the orchestrator
are `ch-`-prefixed; the hypothesis only excludes a caller passing the literal
id `cover-xhtml` as a chapter id.) -/
theorem cover_spine_position_zero :
    (∀ ops : List COp, ops.countP isCoverOpC = 1 →
      (∀ t cid, COp.chapter t cid ∈ ops → cid ≠ (("cover-xhtml").data)) →
      (cRun ops).spineOrder.head? = some (("cover-xhtml").data)) ∧
    (∀ ops : List FOp, ops.countP isCoverOpF = 1 →
      (fRun ops).spineOrder.head? = some (("cover-xhtml").data)) := by
  constructor
  · intro ops hcount hops
    have hpos : 0 < ops.countP isCoverOpC := by omega
    rw [List.countP_pos] at hpos
    obtain ⟨op, hmem, hop⟩ := hpos
    obtain ⟨f, m, rfl⟩ : ∃ f m, op = COp.cover f m := by
      cases op <;> simp [isCoverOpC] at hop
      exact ⟨_, _, rfl⟩
    obtain ⟨pre, post, rfl⟩ := List.append_of_mem hmem
    unfold cRun
    rw [List.foldl_append, List.foldl_cons]
    set stPre := pre.foldl cApply cInit with hstPre
    have hinvPre : coverInvC stPre := by
      rw [hstPre]
      apply cFold_coverInv_weak
      · intro t cid hc
        exact hops t cid (List.mem_append_left _ hc)
      · intro hmem'
        simp [cInit] at hmem'
    have hinvCov : coverInvC (cApply stPre (COp.cover f m)) := by
      intro _
      rfl
    have hmemCov : (("cover-xhtml").data) ∈ (cApply stPre (COp.cover f m)).spineOrder :=
      List.mem_cons_self _ _
    have := cFold_coverInv post (cApply stPre (COp.cover f m))
      (fun t cid hc => hops t cid (by
        rw [List.mem_append]
        exact Or.inr (List.mem_cons_of_mem _ hc)))
      hinvCov hmemCov
    exact this.1 this.2
  · intro ops hcount
    have hpos : 0 < ops.countP isCoverOpF := by omega
    rw [List.countP_pos] at hpos
    obtain ⟨op, hmem, hop⟩ := hpos
    obtain ⟨f, m, rfl⟩ : ∃ f m, op = FOp.cover f m := by
      cases op <;> simp [isCoverOpF] at hop
      exact ⟨_, _, rfl⟩
    obtain ⟨pre, post, rfl⟩ := List.append_of_mem hmem
    unfold fRun
    rw [List.foldl_append, List.foldl_cons]
    set stPre := pre.foldl fApply fInit with hstPre
    have hinvCov : coverInvF (fApply stPre (FOp.cover f m)) := by
      intro _
      rfl
    have hmemCov : (("cover-xhtml").data) ∈ (fApply stPre (FOp.cover f m)).spineOrder :=
      List.mem_cons_self _ _
    have := fFold_coverInv post (fApply stPre (FOp.cover f m)) hinvCov hmemCov
    exact this.1 this.2

/-- Witness for C6 at a concrete call order: cover added between and after
chapters still ends at spine position 0 in both packers. -/
theorem cover_spine_position_zero_witness :
    (cRun [COp.chapter (("A").data) (("ch-A").data),
           COp.cover (("cover.png").data) (("image/png").data),
           COp.chapter (("B").data) (("ch-B").data),
           COp.toc []]).spineOrder.head? = some (("cover-xhtml").data) ∧
    (fRun [FOp.chapter (("A").data) (("p1").data),
           FOp.chapter (("B").data) (("p2").data),
           FOp.tocPage,
           FOp.cover (("cover.png").data) (("image/png").data)]).spineOrder.head? =
      some (("cover-xhtml").data) := by
  constructor
  · refine cover_spine_position_zero.1 _ (by decide) ?_
    intro t cid h
    simp at h
    rcases h with ⟨h1, h2⟩ | ⟨h1, h2⟩ <;> subst h2 <;> decide
  · exact cover_spine_position_zero.2 _ (by decide)

/-! ### Mimetype entry placement (claim C9) -/

/-- The mandatory first entry of a conforming EPUB container: path
`mimetype`, stored uncompressed, content exactly `application/epub+zip`. -/
def mimetypeEntry : ZipEntry :=
  ZipEntry.mk (("mimetype").data)
    (ZipData.text (("application/epub+zip").data)) ZipCompression.store

def zipHeadC (st : CPacker) : Prop := st.zip.head? = some mimetypeEntry

theorem ne_of_head_char {c : Char} {x y : List Char} {d : Char}
    (hy : y.head? = some d) (hc : c ≠ d) : (c :: x) ≠ y := by
  intro h
  rw [← h] at hy
  simp at hy
  exact hc hy

theorem mimetype_head_char : ((("mimetype").data)).head? = some 'm' := rfl

theorem cInit_zipHead : zipHeadC cInit := by
  unfold zipHeadC
  decide

theorem cApply_zipHead {st : CPacker} (op : COp) (h : zipHeadC st) :
    zipHeadC (cApply st op) := by
  cases op with
  | style =>
    exact zipFile_head _ _ _ h (ne_of_head_char mimetype_head_char (by decide))
  | cover f m =>
    show (zipFile (zipFile st.zip _ _ _) _ _ _).head? = _
    refine zipFile_head _ _ _ ?_ (ne_of_head_char mimetype_head_char (by decide))
    exact zipFile_head _ _ _ h (ne_of_head_char mimetype_head_char (by decide))
  | image f m =>
    show zipHeadC (cAddImageToManifest st f m)
    unfold cAddImageToManifest
    split
    · exact h
    · exact zipFile_head _ _ _ h (ne_of_head_char mimetype_head_char (by decide))
  | chapter t cid =>
    show zipHeadC (cAddChapter st t cid)
    unfold cAddChapter
    split
    · exact zipFile_head _ _ _ h (ne_of_head_char mimetype_head_char (by decide))
    · split
      · exact zipFile_head _ _ _ h (ne_of_head_char mimetype_head_char (by decide))
      · exact zipFile_head _ _ _ h (ne_of_head_char mimetype_head_char (by decide))
  | toc posts =>
    show zipHeadC (cAddTableOfContents st posts)
    unfold cAddTableOfContents
    split
    · exact zipFile_head _ _ _ h (ne_of_head_char mimetype_head_char (by decide))
    · exact zipFile_head _ _ _ h (ne_of_head_char mimetype_head_char (by decide))

theorem cFinalize_zipHead {st : CPacker} (h : zipHeadC st) :
    zipHeadC (cFinalize st) := by
  show (zipFile (zipFile (zipFile (zipFolder st.zip _) _ _ _) _ _ _) _ _ _).head? = _
  refine zipFile_head _ _ _ ?_ (ne_of_head_char mimetype_head_char (by decide))
  refine zipFile_head _ _ _ ?_ (ne_of_head_char mimetype_head_char (by decide))
  refine zipFile_head _ _ _ ?_ (ne_of_head_char mimetype_head_char (by decide))
  exact zipFolder_head _ h (ne_of_head_char mimetype_head_char (by decide))

theorem cRun_zipHead (ops : List COp) : zipHeadC (cRun ops) := by
  unfold cRun
  have : ∀ (l : List COp) (st : CPacker), zipHeadC st → zipHeadC (l.foldl cApply st) := by
    intro l
    induction l with
    | nil => intro st h; exact h
    | cons op rest ih =>
      intro st h
      rw [List.foldl_cons]
      exact ih _ (cApply_zipHead op h)
  exact this ops cInit cInit_zipHead

/-- The first entry of the Firefox packer's container: the `OEBPS` folder
entry created in the constructor. -/
def oebpsDirEntry : ZipEntry :=
  ZipEntry.mk (("OEBPS/").data) ZipData.dir ZipCompression.store

def fZipInv (st : FPacker) : Prop :=
  st.zip.head? = some oebpsDirEntry ∧
    ∀ e ∈ st.zip, e.path ≠ (("mimetype").data)

theorem oebps_head_char : ((("OEBPS/").data)).head? = some 'O' := rfl

theorem fInit_fZipInv : fZipInv fInit := by
  constructor
  · decide
  · decide

theorem zipFile_no_mimetype {z : List ZipEntry} (path : List Char) (d : ZipData)
    (comp : ZipCompression) (hz : ∀ e ∈ z, e.path ≠ (("mimetype").data))
    (hp : path ≠ (("mimetype").data)) :
    ∀ e ∈ zipFile z path d comp, e.path ≠ (("mimetype").data) := by
  intro e he
  rcases zipFile_paths _ _ _ he with h | h
  · rw [h]; exact hp
  · exact hz e h

theorem append_ne_of_len {p q x : List Char} (h : q.length < p.length) :
    p ++ x ≠ q := by
  intro he
  have := congrArg List.length he
  simp at this
  omega

theorem fApply_fZipInv {st : FPacker} (op : FOp) (h : fZipInv st) :
    fZipInv (fApply st op) := by
  obtain ⟨hhead, hno⟩ := h
  cases op with
  | style =>
    refine ⟨zipFile_head _ _ _ hhead (by decide), ?_⟩
    exact zipFile_no_mimetype _ _ _ hno (by decide)
  | cover f m =>
    show fZipInv (fAddCoverImage st f m)
    refine ⟨?_, ?_⟩
    · show (zipFile (zipFile st.zip _ _ _) _ _ _).head? = _
      refine zipFile_head _ _ _ ?_ (by decide)
      exact zipFile_head _ _ _ hhead (append_ne_of_len (by decide))
    · refine zipFile_no_mimetype _ _ _ ?_ (by decide)
      exact zipFile_no_mimetype _ _ _ hno (append_ne_of_len (by decide))
  | image f lp m =>
    refine ⟨zipFile_head _ _ _ hhead (append_ne_of_len (by decide)), ?_⟩
    exact zipFile_no_mimetype _ _ _ hno (append_ne_of_len (by decide))
  | chapter t pid =>
    refine ⟨zipFile_head _ _ _ hhead (append_ne_of_len (by decide)), ?_⟩
    exact zipFile_no_mimetype _ _ _ hno (append_ne_of_len (by decide))
  | tocPage =>
    show fZipInv (fAddTableOfContentsPage st)
    unfold fAddTableOfContentsPage
    split
    · refine ⟨zipFile_head _ _ _ hhead (by decide), ?_⟩
      exact zipFile_no_mimetype _ _ _ hno (by decide)
    · exact ⟨hhead, hno⟩

theorem fFinalize_zip {st : FPacker} (h : fZipInv st) :
    (fFinalize st).zip.head? = some oebpsDirEntry ∧
      mimetypeEntry ∈ (fFinalize st).zip := by
  obtain ⟨hhead, hno⟩ := h
  have hmimeHead : (zipFile st.zip (("mimetype").data)
      (ZipData.text (("application/epub+zip").data)) ZipCompression.store).head? =
      some oebpsDirEntry :=
    zipFile_head _ _ _ hhead (by decide)
  have hmimeMem : mimetypeEntry ∈ zipFile st.zip (("mimetype").data)
      (ZipData.text (("application/epub+zip").data)) ZipCompression.store :=
    zipFile_fresh_mem _ _ _ hno
  constructor
  · show (zipFile (zipFile (zipFile (zipFile (zipFolder _ _) _ _ _) _ _ _) _ _ _) _ _ _).head? = _
    refine zipFile_head _ _ _ ?_ (by decide)
    refine zipFile_head _ _ _ ?_ (by decide)
    refine zipFile_head _ _ _ ?_ (by decide)
    refine zipFile_head _ _ _ ?_ (by decide)
    exact zipFolder_head _ hmimeHead (by decide)
  · show mimetypeEntry ∈ zipFile (zipFile (zipFile (zipFile (zipFolder _ _) _ _ _) _ _ _) _ _ _) _ _ _
    refine zipFile_mem _ _ _ ?_ (by decide)
    refine zipFile_mem _ _ _ ?_ (by decide)
    refine zipFile_mem _ _ _ ?_ (by decide)
    refine zipFile_mem _ _ _ ?_ (by decide)
    exact zipFolder_mem _ hmimeMem

theorem fRun_fZipInv (ops : List FOp) : fZipInv (fRun ops) := by
  unfold fRun
  have : ∀ (l : List FOp) (st : FPacker), fZipInv st → fZipInv (l.foldl fApply st) := by
    intro l
    induction l with
    | nil => intro st h; exact h
    | cons op rest ih =>
      intro st h
      rw [List.foldl_cons]
      exact ih _ (fApply_fZipInv op h)
  exact this ops fInit fInit_fZipInv

/-- C9 (amended): the mimetype entry is stored uncompressed with content
exactly `application/epub+zip` in both packers; in the Chromium packer it is
created in the constructor, before any other entry, so it is the first entry
of every produced container, for every call sequence.  The Firefox packer,
however, only adds it inside `packToBlob`, after the constructor's folder
entries, so there the container's first entry is the `OEBPS/` folder entry
(the mimetype entry is present but not first — see the counterexample). -/
theorem mimetype_entry_placement :
    (∀ ops : List COp, (cFinalize (cRun ops)).zip.head? = some mimetypeEntry) ∧
    (∀ ops : List FOp,
      (fFinalize (fRun ops)).zip.head? = some oebpsDirEntry ∧
        mimetypeEntry ∈ (fFinalize (fRun ops)).zip) := by
  constructor
  · intro ops
    exact cFinalize_zipHead (cRun_zipHead ops)
  · intro ops
    exact fFinalize_zip (fRun_fZipInv ops)

/-- The error carried by an `Except`, if any (used to state that a run
aborts with a given error). -/
def exceptErr {e a : Type} : Except e a → Option e
  | Except.error err => some err
  | Except.ok _ => none

/-! ### Concrete fixtures for the generation-run evaluations -/

def okPngBlob : FetchOracle := fun u => Except.ok (JsBlob.mk (("image/png").data) u)

def failAllBlob : FetchOracle := fun _ =>
  Except.error (("Asset request failed: 500").data)

def stubA : PostStub := PostStub.mk (("p1").data) (("A").data)

def stubB : PostStub := PostStub.mk (("p2").data) (("B").data)

def detailA : PostDetail := PostDetail.mk (("p1").data) (("A").data) [] none []

def detailB : PostDetail := PostDetail.mk (("p2").data) (("B").data) [] none []

def oracleAB : DetailOracle := fun id =>
  if id = (("p1").data) then Except.ok detailA
  else if id = (("p2").data) then Except.ok detailB
  else Except.error (("API request failed: 404").data)

/-- A detail oracle whose first post fails with a transport error. -/
def oracleFailP1 : DetailOracle := fun id =>
  if id = (("p1").data) then Except.error (("API request failed: 500").data)
  else oracleAB id

/-- C9 counterexample: in an archive produced by the Firefox `packToBlob`,
the first entry is the `OEBPS/` folder entry created by the constructor, not
the mimetype entry; the mimetype entry exists (stored, exact content) but
later in the container. -/
theorem firefox_mimetype_not_first :
    (firefoxGenerate oracleAB okPngBlob none [stubA, stubB]).packer.zip.head? =
        some oebpsDirEntry ∧
      oebpsDirEntry ≠ mimetypeEntry ∧
      mimetypeEntry ∈ (firefoxGenerate oracleAB okPngBlob none [stubA, stubB]).packer.zip := by
  refine ⟨by decide, by decide, by decide⟩

/-- C1 (code bug): in a Chromium generation run with a cover, `addChapter`
splices every chapter directly after the cover, so chapters added in the
order A, B end up in the spine in REVERSE order — `[cover-xhtml, toc, ch-B,
ch-A]` — while the TocEntries keep the call order A, B.  The spine/TOC order
invariant claimed by the spec is violated (and the navigation documents
disagree with the reading order).  Without a cover the order is preserved,
and the Firefox variant, which appends chapters, satisfies the claim. -/
theorem chromium_cover_run_reverses_spine :
    ((chromiumGenerate oracleAB okPngBlob (some (("http://c/x.png").data))
        [stubA, stubB]).toOption).map
      (fun st => (st.spineOrder, st.tocEntries.map TocEntryC.rawTitle)) =
    some ([("cover-xhtml").data, ("toc").data, ("ch-B").data, ("ch-A").data],
      [("A").data, ("B").data]) := by
  decide

/-- C2 counterexample: a Chromium generation run that produced exactly one
chapter still adds the human-readable contents page — `addTableOfContents`
is called whenever `processedPosts.length > 0` — so the spine is
`[toc, ch-A]` and the manifest holds a `nav` contents item, contradicting
the claimed single-chapter suppression. -/
theorem chromium_single_chapter_contents_page :
    ((chromiumGenerate oracleAB okPngBlob none [stubA]).toOption).map
      (fun st => (st.spineOrder,
        st.manifestItems.countP (fun m => m.id = (("toc").data)))) =
    some ([("toc").data, ("ch-A").data], 1) := by
  decide

/-- C3 (code bug): a failure fetching one post's detail propagates out of the
Chromium `generateKemonoEpub` — its per-post loop has no `try`/`catch`, so
the whole run aborts with the transport error and its `if (!post) continue`
skip path is unreachable.  The Firefox orchestrator catches the same failure
inside the loop: the run completes, progress still advances to the full 95%
for both posts, the failed post is skipped and the other post's chapter is
produced. -/
theorem detail_fetch_failure_propagation :
    exceptErr (chromiumGenerate oracleFailP1 okPngBlob none [stubA, stubB]) =
      some (("API request failed: 500").data) ∧
    (firefoxGenerate oracleFailP1 okPngBlob none [stubA, stubB]).packer.spineOrder =
      [("chapter-p2").data] ∧
    (firefoxGenerate oracleFailP1 okPngBlob none [stubA, stubB]).failedIds =
      [("p1").data] ∧
    (firefoxGenerate oracleFailP1 okPngBlob none [stubA, stubB]).advancedPosts = 2 := by
  refine ⟨by decide, by decide, by decide, by decide⟩

def stubTocTitle : PostStub := PostStub.mk (("p1").data) (("toc").data)

def oracleTocTitle : DetailOracle := fun id =>
  if id = (("p1").data) then
    Except.ok (PostDetail.mk (("p1").data) (("toc").data) [] none [])
  else Except.error (("API request failed: 404").data)

/-- C5 counterexample: in a Chromium run with a post titled `toc`, the
chapter file is written to `Text/toc.xhtml` — the same archive path as the
generated contents page — so two manifest items (`ch-toc` and `toc`) share
one archive path, contradicting archive-wide manifest uniqueness. -/
theorem chromium_manifest_path_collision :
    ((chromiumGenerate oracleTocTitle okPngBlob none [stubTocTitle]).toOption).map
      (fun st => (st.manifestItems.countP
          (fun m => m.href = (("Text/toc.xhtml").data)),
        st.manifestItems.map ManifestItem.id)) =
    some (2, [("css").data, ("ch-toc").data, ("toc").data]) := by
  decide

/-! ### Asset dedup within a post (claim C4) -/

def postTwoSameImgs : PostDetail :=
  PostDetail.mk (("p9").data) (("T").data)
    [ImgRef.mk (("/i/a.png").data) [], ImgRef.mk (("/i/a.png").data) []] none []

/-- C4 counterexample: the Chromium normalizer has no dedup — a post whose
content references the same resolved URL twice fetches it twice and produces
two asset descriptors with two different archive paths, and the two
references are rewritten to those two different paths. -/
theorem chromium_no_dedup_double_fetch :
    (chromiumProcessPost okPngBlob postTwoSameImgs).fetched.count
        (("https://kemono.cr/i/a.png").data) = 2 ∧
    (chromiumProcessPost okPngBlob postTwoSameImgs).assets.map
        AssetInfo.localPathInEpub =
      [("Images/inline_p9_0.png").data, ("Images/inline_p9_1.png").data] ∧
    (chromiumProcessPost okPngBlob postTwoSameImgs).imgs.map ImgRef.src =
      [("../Images/inline_p9_0.png").data, ("../Images/inline_p9_1.png").data] := by
  refine ⟨by decide, by decide, by decide⟩

/-- The C4 bookkeeping invariant: at most one asset for the URL `u`, and the
number of fetches of `u` so far equals the number of assets for `u`. -/
def dedupInv (u : List Char) (acc : NormResult) : Prop :=
  acc.assets.countP (fun a => decide (a.originalUrl = u)) ≤ 1 ∧
    acc.fetched.count u = acc.assets.countP (fun a => decide (a.originalUrl = u))

theorem find?_none_iff_countP_zero {u : List Char} {l : List AssetInfo} :
    l.find? (fun a => a.originalUrl = u) = none ↔
      l.countP (fun a => decide (a.originalUrl = u)) = 0 := by
  rw [List.find?_eq_none, List.countP_eq_zero]

theorem find?_stable_append {u : List Char} {l₁ l₂ : List AssetInfo} {a : AssetInfo}
    (h : l₁.find? (fun a => a.originalUrl = u) = some a) :
    (l₁ ++ l₂).find? (fun a => a.originalUrl = u) = some a := by
  rw [List.find?_append, h]
  rfl

theorem count_singleton_ne {u v : List Char} (h : v ≠ u) : List.count u [v] = 0 := by
  have hm : u ∉ [v] := by simp [Ne.symm h]
  exact List.count_eq_zero.mpr hm

theorem countP_pos_of_find_some {u : List Char} {l : List AssetInfo} {a : AssetInfo}
    (h : l.find? (fun x => x.originalUrl = u) = some a) :
    0 < l.countP (fun x => decide (x.originalUrl = u)) := by
  have hm := List.mem_of_find?_eq_some h
  have hp := List.find?_some h
  exact List.countP_pos.mpr ⟨a, hm, hp⟩

theorem imgStep_inv {fetchBlob : FetchOracle} {u : List Char} {b : JsBlob}
    (hok : fetchBlob u = Except.ok b) (postId : List Char)
    {acc : NormResult} (h : dedupInv u acc) (ip : Nat × ImgRef) :
    dedupInv u (firefoxImgStep fetchBlob postId acc ip) := by
  obtain ⟨h1, h2⟩ := h
  obtain ⟨i, img⟩ := ip
  simp only [firefoxImgStep]
  split
  · exact ⟨h1, h2⟩
  · split
    · exact ⟨h1, h2⟩
    · next hfind =>
      split
      · next blob hfetch =>
        by_cases hu : firefoxResolveSrc img.src = u
        · have hz : acc.assets.countP (fun a => decide (a.originalUrl = u)) = 0 :=
            find?_none_iff_countP_zero.mp (hu ▸ hfind)
          have hf : acc.fetched.count u = 0 := h2.trans hz
          refine ⟨?_, ?_⟩ <;>
            simp [dedupInv, List.countP_append, List.count_append, hz, hf, hu]
        · refine ⟨?_, ?_⟩ <;>
            simp [dedupInv, List.countP_append, List.count_append, hu, h1, h2,
              count_singleton_ne hu]
      · next e hfetch =>
        by_cases hu : firefoxResolveSrc img.src = u
        · rw [hu, hok] at hfetch; exact absurd hfetch (by simp)
        · refine ⟨h1, ?_⟩
          simp [List.count_append, hu, h2, count_singleton_ne hu]

theorem imgFold_inv {fetchBlob : FetchOracle} {u : List Char} {b : JsBlob}
    (hok : fetchBlob u = Except.ok b) (postId : List Char) :
    ∀ (l : List (Nat × ImgRef)) (acc : NormResult), dedupInv u acc →
      dedupInv u (l.foldl (firefoxImgStep fetchBlob postId) acc)
  | [], _, h => h
  | ip :: t, acc, h =>
    imgFold_inv hok postId t _ (imgStep_inv hok postId h ip)

theorem fileStep_inv {fetchBlob : FetchOracle} {u : List Char} {b : JsBlob}
    (hok : fetchBlob u = Except.ok b)
    {acc : NormResult} (h : dedupInv u acc) (f : FileRef) :
    dedupInv u (firefoxFileStep fetchBlob acc f) := by
  obtain ⟨h1, h2⟩ := h
  simp only [firefoxFileStep]
  split
  · next hguard =>
    split
    · exact ⟨h1, h2⟩
    · next hfind =>
      split
      · next blob hfetch =>
        set url := (if f.server = [] then (("https://kemono.su").data) else f.server)
          ++ f.path with hurl
        by_cases hu : url = u
        · have hz : acc.assets.countP (fun a => decide (a.originalUrl = u)) = 0 :=
            find?_none_iff_countP_zero.mp (hu ▸ hfind)
          have hf : acc.fetched.count u = 0 := h2.trans hz
          refine ⟨?_, ?_⟩ <;>
            simp [List.countP_append, List.count_append, hz, hf, hu]
        · refine ⟨?_, ?_⟩ <;>
            simp [List.countP_append, List.count_append, hu, h1, h2,
              count_singleton_ne hu]
      · next e hfetch =>
        set url := (if f.server = [] then (("https://kemono.su").data) else f.server)
          ++ f.path with hurl
        by_cases hu : url = u
        · rw [hu, hok] at hfetch; exact absurd hfetch (by simp)
        · refine ⟨h1, ?_⟩
          simp [List.count_append, h2, count_singleton_ne hu]
  · exact ⟨h1, h2⟩

theorem fileFold_inv {fetchBlob : FetchOracle} {u : List Char} {b : JsBlob}
    (hok : fetchBlob u = Except.ok b) :
    ∀ (l : List FileRef) (acc : NormResult), dedupInv u acc →
      dedupInv u (l.foldl (firefoxFileStep fetchBlob) acc)
  | [], _, h => h
  | f :: t, acc, h => fileFold_inv hok t _ (fileStep_inv hok h f)

theorem imgStep_assets_ext (fetchBlob : FetchOracle) (postId : List Char)
    (acc : NormResult) (ip : Nat × ImgRef) :
    ∃ t, (firefoxImgStep fetchBlob postId acc ip).assets = acc.assets ++ t := by
  obtain ⟨i, img⟩ := ip
  simp only [firefoxImgStep]
  split
  · exact ⟨[], by simp⟩
  · split
    · exact ⟨[], by simp⟩
    · split
      · exact ⟨_, rfl⟩
      · exact ⟨[], by simp⟩

theorem imgStep_imgs_ext (fetchBlob : FetchOracle) (postId : List Char)
    (acc : NormResult) (ip : Nat × ImgRef) :
    ∃ y, (firefoxImgStep fetchBlob postId acc ip).imgs = acc.imgs ++ [y] := by
  obtain ⟨i, img⟩ := ip
  simp only [firefoxImgStep]
  split
  · exact ⟨_, rfl⟩
  · split
    · exact ⟨_, rfl⟩
    · split
      · exact ⟨_, rfl⟩
      · exact ⟨_, rfl⟩

theorem fileStep_imgs (fetchBlob : FetchOracle) (acc : NormResult) (f : FileRef) :
    (firefoxFileStep fetchBlob acc f).imgs = acc.imgs := by
  simp only [firefoxFileStep]
  split
  · split
    · rfl
    · split
      · rfl
      · rfl
  · rfl

theorem fileStep_assets_ext (fetchBlob : FetchOracle) (acc : NormResult) (f : FileRef) :
    ∃ t, (firefoxFileStep fetchBlob acc f).assets = acc.assets ++ t := by
  simp only [firefoxFileStep]
  split
  · split
    · exact ⟨[], by simp⟩
    · split
      · exact ⟨_, rfl⟩
      · exact ⟨[], by simp⟩
  · exact ⟨[], by simp⟩

theorem imgFold_find_stable {fetchBlob : FetchOracle} (postId : List Char)
    {u : List Char} :
    ∀ (l : List (Nat × ImgRef)) (acc : NormResult) (a : AssetInfo),
      acc.assets.find? (fun x => x.originalUrl = u) = some a →
      (l.foldl (firefoxImgStep fetchBlob postId) acc).assets.find?
        (fun x => x.originalUrl = u) = some a
  | [], _, _, h => h
  | ip :: t, acc, a, h => by
    obtain ⟨ext, hext⟩ := imgStep_assets_ext fetchBlob postId acc ip
    refine imgFold_find_stable postId t _ a ?_
    rw [hext]
    exact find?_stable_append h

theorem fileFold_find_stable {fetchBlob : FetchOracle} {u : List Char} :
    ∀ (l : List FileRef) (acc : NormResult) (a : AssetInfo),
      acc.assets.find? (fun x => x.originalUrl = u) = some a →
      (l.foldl (firefoxFileStep fetchBlob) acc).assets.find?
        (fun x => x.originalUrl = u) = some a
  | [], _, _, h => h
  | f :: t, acc, a, h => by
    obtain ⟨ext, hext⟩ := fileStep_assets_ext fetchBlob acc f
    refine fileFold_find_stable t _ a ?_
    rw [hext]
    exact find?_stable_append h

theorem fileFold_imgs (fetchBlob : FetchOracle) :
    ∀ (l : List FileRef) (acc : NormResult),
      (l.foldl (firefoxFileStep fetchBlob) acc).imgs = acc.imgs
  | [], _ => rfl
  | f :: t, acc => by
    rw [List.foldl_cons, fileFold_imgs fetchBlob t, fileStep_imgs]

theorem find?_append_singleton_self {u : List Char} {l : List AssetInfo} {A : AssetInfo}
    (hnone : l.find? (fun x => x.originalUrl = u) = none) (hA : A.originalUrl = u) :
    (l ++ [A]).find? (fun x => x.originalUrl = u) = some A := by
  rw [List.find?_append, hnone, Option.none_or]
  exact List.find?_cons_of_pos _ (by simp [hA])

theorem imgStep_u_out {fetchBlob : FetchOracle} {u : List Char} {b : JsBlob}
    (hok : fetchBlob u = Except.ok b) (postId : List Char)
    (acc : NormResult) (i : Nat) (img : ImgRef)
    (hsrc : img.src ≠ []) (hu : firefoxResolveSrc img.src = u) :
    ∃ a, (firefoxImgStep fetchBlob postId acc (i, img)).assets.find?
        (fun x => x.originalUrl = u) = some a ∧
      (firefoxImgStep fetchBlob postId acc (i, img)).imgs =
        acc.imgs ++ [ImgRef.mk ((("../Images/").data) ++ a.fileNameInEpub) img.alt] := by
  simp only [firefoxImgStep, if_neg hsrc, hu]
  cases hfind : acc.assets.find? (fun a => a.originalUrl = u) with
  | some ex =>
    refine ⟨ex, hfind, rfl⟩
  | none =>
    rw [hok]
    exact ⟨_, find?_append_singleton_self hfind rfl, rfl⟩

theorem imgFold_spec {fetchBlob : FetchOracle} {u : List Char} {b : JsBlob}
    (hok : fetchBlob u = Except.ok b) (postId : List Char) :
    ∀ (l : List ImgRef) (n : Nat) (acc : NormResult),
      ∃ outs : List ImgRef,
        ((List.enumFrom n l).foldl (firefoxImgStep fetchBlob postId) acc).imgs
          = acc.imgs ++ outs ∧
        ∀ (k : Nat) (im : ImgRef), l[k]? = some im → im.src ≠ [] →
          firefoxResolveSrc im.src = u →
          ∃ a₀,
            ((List.enumFrom n l).foldl
                (firefoxImgStep fetchBlob postId) acc).assets.find?
              (fun x => x.originalUrl = u) = some a₀ ∧
            outs[k]? =
              some (ImgRef.mk ((("../Images/").data) ++ a₀.fileNameInEpub) im.alt)
  | [], n, acc => ⟨[], by simp, fun k im hk => by simp at hk⟩
  | x :: t, n, acc => by
    have henum : List.enumFrom n (x :: t) = (n, x) :: List.enumFrom (n + 1) t := rfl
    rw [henum, List.foldl_cons]
    obtain ⟨outs, houts, hk⟩ :=
      imgFold_spec hok postId t (n + 1) (firefoxImgStep fetchBlob postId acc (n, x))
    obtain ⟨y, hy⟩ := imgStep_imgs_ext fetchBlob postId acc (n, x)
    refine ⟨y :: outs, ?_, ?_⟩
    · rw [houts, hy]
      simp
    · intro k im hkim hsrc hu
      cases k with
      | zero =>
        have hx : x = im := by simpa using hkim
        subst hx
        obtain ⟨a, hfa, hia⟩ := imgStep_u_out hok postId acc n x hsrc hu
        have h2 := List.append_cancel_left (hy.symm.trans hia)
        have hyv : y = ImgRef.mk ((("../Images/").data) ++ a.fileNameInEpub) x.alt := by
          simpa using h2
        refine ⟨a, ?_, by simp [hyv]⟩
        exact imgFold_find_stable postId (List.enumFrom (n + 1) t) _ a hfa
      | succ k =>
        obtain ⟨a₀, hfa, hout⟩ := hk k im (by simpa using hkim) hsrc hu
        exact ⟨a₀, hfa, by simpa using hout⟩

theorem fileOpt_inv {fetchBlob : FetchOracle} {u : List Char} {b : JsBlob}
    (hok : fetchBlob u = Except.ok b) {acc : NormResult} (h : dedupInv u acc) :
    ∀ o : Option FileRef,
      dedupInv u (match o with
        | some f => firefoxFileStep fetchBlob acc f
        | none => acc)
  | some f => fileStep_inv hok h f
  | none => h

theorem fileOpt_imgs (fetchBlob : FetchOracle) (acc : NormResult) :
    ∀ o : Option FileRef,
      (match o with
        | some f => firefoxFileStep fetchBlob acc f
        | none => acc).imgs = acc.imgs
  | some f => fileStep_imgs fetchBlob acc f
  | none => rfl

theorem fileOpt_find_stable {fetchBlob : FetchOracle} {u : List Char}
    {acc : NormResult} {a : AssetInfo}
    (h : acc.assets.find? (fun x => x.originalUrl = u) = some a) :
    ∀ o : Option FileRef,
      (match o with
        | some f => firefoxFileStep fetchBlob acc f
        | none => acc).assets.find? (fun x => x.originalUrl = u) = some a
  | some f => by
    obtain ⟨t, ht⟩ := fileStep_assets_ext fetchBlob acc f
    rw [ht]
    exact find?_stable_append h
  | none => h

/-- C4 amended (Firefox side): for every post and every URL `u` whose fetch
succeeds, if some inline image reference of the post resolves to `u`, then
the Firefox normalizer fetches `u` exactly once, produces exactly one
`AssetDescriptor` for it, and rewrites every reference that resolves to `u`
to the same in-archive path, built from that one descriptor's file name. -/
theorem firefox_asset_dedup (fetchBlob : FetchOracle) (post : PostDetail)
    (u : List Char) (b : JsBlob) (hok : fetchBlob u = Except.ok b)
    (k₀ : Nat) (im₀ : ImgRef) (h₀ : post.imgs[k₀]? = some im₀)
    (hs₀ : im₀.src ≠ []) (hu₀ : firefoxResolveSrc im₀.src = u) :
    (firefoxProcessPost fetchBlob post).fetched.count u = 1 ∧
    (firefoxProcessPost fetchBlob post).assets.countP
        (fun a => decide (a.originalUrl = u)) = 1 ∧
    ∃ a₀, (firefoxProcessPost fetchBlob post).assets.find?
        (fun x => x.originalUrl = u) = some a₀ ∧
      ∀ (k : Nat) (im : ImgRef), post.imgs[k]? = some im → im.src ≠ [] →
        firefoxResolveSrc im.src = u →
        (firefoxProcessPost fetchBlob post).imgs[k]? =
          some (ImgRef.mk ((("../Images/").data) ++ a₀.fileNameInEpub) im.alt) := by
  obtain ⟨outs, houts, hk⟩ :=
    imgFold_spec hok post.id post.imgs 0 (NormResult.mk [] [] [])
  have hres : firefoxProcessPost fetchBlob post =
      post.attachments.foldl (firefoxFileStep fetchBlob)
        (match post.fileRef with
          | some f => firefoxFileStep fetchBlob
              ((List.enumFrom 0 post.imgs).foldl
                (firefoxImgStep fetchBlob post.id) (NormResult.mk [] [] [])) f
          | none => (List.enumFrom 0 post.imgs).foldl
              (firefoxImgStep fetchBlob post.id) (NormResult.mk [] [] [])) := rfl
  obtain ⟨a₀, hfa1, hout0⟩ := hk k₀ im₀ h₀ hs₀ hu₀
  have hfa2 := @fileOpt_find_stable fetchBlob u _ a₀ hfa1 post.fileRef
  have hfa3 : (firefoxProcessPost fetchBlob post).assets.find?
      (fun x => x.originalUrl = u) = some a₀ := by
    rw [hres]
    exact fileFold_find_stable post.attachments _ a₀ hfa2
  have hinv : dedupInv u (firefoxProcessPost fetchBlob post) := by
    rw [hres]
    refine fileFold_inv hok post.attachments _ (fileOpt_inv hok ?_ post.fileRef)
    exact imgFold_inv hok post.id _ _ ⟨by simp, by simp⟩
  obtain ⟨hle, heq⟩ := hinv
  have hpos : 0 < (firefoxProcessPost fetchBlob post).assets.countP
      (fun x => decide (x.originalUrl = u)) := countP_pos_of_find_some hfa3
  have hcp : (firefoxProcessPost fetchBlob post).assets.countP
      (fun x => decide (x.originalUrl = u)) = 1 := by omega
  have himgs : (firefoxProcessPost fetchBlob post).imgs = outs := by
    rw [hres, fileFold_imgs, fileOpt_imgs, houts]
    simp
  refine ⟨heq.trans hcp, hcp, a₀, hfa3, ?_⟩
  intro k im hkim hsrc hu
  obtain ⟨a₁, hfa1', hout⟩ := hk k im hkim hsrc hu
  have ha : a₁ = a₀ := by
    rw [hfa1'] at hfa1
    exact Option.some.inj hfa1
  rw [himgs, hout, ha]

/-- Witness: the Firefox dedup theorem applied to a concrete post holding two
references to the same URL. -/
theorem firefox_asset_dedup_witness :
    (firefoxProcessPost okPngBlob postTwoSameImgs).fetched.count
        (("https://kemono.su/i/a.png").data) = 1 ∧
    (firefoxProcessPost okPngBlob postTwoSameImgs).assets.countP
        (fun a => decide (a.originalUrl = (("https://kemono.su/i/a.png").data))) = 1 ∧
    ∃ a₀, (firefoxProcessPost okPngBlob postTwoSameImgs).assets.find?
        (fun x => x.originalUrl = (("https://kemono.su/i/a.png").data)) = some a₀ ∧
      ∀ (k : Nat) (im : ImgRef), postTwoSameImgs.imgs[k]? = some im →
        im.src ≠ [] →
        firefoxResolveSrc im.src = (("https://kemono.su/i/a.png").data) →
        (firefoxProcessPost okPngBlob postTwoSameImgs).imgs[k]? =
          some (ImgRef.mk ((("../Images/").data) ++ a₀.fileNameInEpub) im.alt) :=
  firefox_asset_dedup okPngBlob postTwoSameImgs (("https://kemono.su/i/a.png").data)
    (JsBlob.mk (("image/png").data) (("https://kemono.su/i/a.png").data)) rfl
    0 (ImgRef.mk (("/i/a.png").data) []) rfl (by decide) (by decide)

/-! ### Per-image failure handling (claim C7) -/

/-- The image the Chromium inline loop appends for input `img` at index `i`
(before the rewrite pass). -/
def chromiumLoopOut (f : FetchOracle) (pid : List Char) (i : Nat)
    (img : ImgRef) : ImgRef :=
  if img.src = [] then img
  else
    match f (chromiumNormalizeUrl img.src) with
    | Except.ok rawBlob =>
      ImgRef.mk ((("../Images/").data) ++ sanitizeFilename
        ((("inline_").data) ++ pid ++ ('_' :: natRepr i) ++
          ('.' :: (processImageBlob rawBlob (chromiumNormalizeUrl img.src)).2.2)))
        img.alt
    | Except.error _ =>
      ImgRef.mk img.src (img.alt ++ ((" (Image not available)").data))

/-- The `alt` the Chromium pipeline leaves on a reference, as a function of
that reference's own fetch outcome only. -/
def chromiumExpectedAlt (f : FetchOracle) (img : ImgRef) : List Char :=
  if img.src = [] then img.alt
  else
    match f (chromiumNormalizeUrl img.src) with
    | Except.ok _ => img.alt
    | Except.error _ => img.alt ++ ((" (Image not available)").data)

/-- The `alt` the Firefox pipeline leaves on a reference, as a function of
that reference's own fetch outcome only. -/
def firefoxExpectedAlt (f : FetchOracle) (img : ImgRef) : List Char :=
  if img.src = [] then img.alt
  else
    match f (firefoxResolveSrc img.src) with
    | Except.ok _ => img.alt
    | Except.error _ =>
      img.alt ++ ((" (Image not available: ").data) ++ img.src ++ [')']

/-- Every asset descriptor in the accumulator came from a successful fetch. -/
def okAssets (f : FetchOracle) (res : NormResult) : Prop :=
  ∀ a ∈ res.assets, ∃ bb, f a.originalUrl = Except.ok bb

theorem chromiumLoopOut_alt (f : FetchOracle) (pid : List Char) (i : Nat)
    (img : ImgRef) : (chromiumLoopOut f pid i img).alt = chromiumExpectedAlt f img := by
  simp only [chromiumLoopOut, chromiumExpectedAlt]
  split
  · rfl
  · split <;> rfl

theorem chromiumImgStep_out (f : FetchOracle) (pid : List Char)
    (acc : NormResult) (i : Nat) (img : ImgRef) :
    (chromiumImgStep f pid acc (i, img)).imgs =
      acc.imgs ++ [chromiumLoopOut f pid i img] := by
  simp only [chromiumImgStep, chromiumLoopOut]
  split
  · rfl
  · split <;> rfl

theorem chromiumImgStep_okAssets {f : FetchOracle} (pid : List Char)
    {acc : NormResult} (h : okAssets f acc) (ip : Nat × ImgRef) :
    okAssets f (chromiumImgStep f pid acc ip) := by
  obtain ⟨i, img⟩ := ip
  simp only [chromiumImgStep]
  split
  · exact h
  · split
    · next rawBlob hfetch =>
      intro a ha
      rcases List.mem_append.mp ha with hmem | hmem
      · exact h a hmem
      · simp at hmem
        subst hmem
        exact ⟨rawBlob, hfetch⟩
    · exact h

theorem chromiumFold_okAssets {f : FetchOracle} (pid : List Char) :
    ∀ (l : List (Nat × ImgRef)) (acc : NormResult), okAssets f acc →
      okAssets f (l.foldl (chromiumImgStep f pid) acc)
  | [], _, h => h
  | ip :: t, acc, h =>
    chromiumFold_okAssets pid t _ (chromiumImgStep_okAssets pid h ip)

theorem countP_zero_of_okAssets {f : FetchOracle} {res : NormResult}
    {u e : List Char} (h : okAssets f res) (he : f u = Except.error e) :
    res.assets.countP (fun a => decide (a.originalUrl = u)) = 0 := by
  refine List.countP_eq_zero.mpr ?_
  intro a ha
  obtain ⟨bb, hbb⟩ := h a ha
  simp only [decide_eq_true_eq]
  intro hu
  rw [hu, he] at hbb
  exact absurd hbb (by simp)

theorem chromiumRewriteImg_alt (assets : List AssetInfo) (img : ImgRef) :
    (chromiumRewriteImg assets img).alt = img.alt := by
  simp only [chromiumRewriteImg]
  split
  · rfl
  · split
    · rfl
    · split <;> rfl

theorem chromiumFold_out (f : FetchOracle) (pid : List Char) :
    ∀ (l : List ImgRef) (n : Nat) (acc : NormResult),
      ∃ outs : List ImgRef,
        ((List.enumFrom n l).foldl (chromiumImgStep f pid) acc).imgs
          = acc.imgs ++ outs ∧
        ∀ (k : Nat) (im : ImgRef), l[k]? = some im →
          outs[k]? = some (chromiumLoopOut f pid (n + k) im)
  | [], n, acc => ⟨[], by simp, fun k im hk => by simp at hk⟩
  | x :: t, n, acc => by
    have henum : List.enumFrom n (x :: t) = (n, x) :: List.enumFrom (n + 1) t := rfl
    rw [henum, List.foldl_cons]
    obtain ⟨outs, houts, hk⟩ :=
      chromiumFold_out f pid t (n + 1) (chromiumImgStep f pid acc (n, x))
    refine ⟨chromiumLoopOut f pid n x :: outs, ?_, ?_⟩
    · rw [houts, chromiumImgStep_out]
      simp
    · intro k im hkim
      cases k with
      | zero =>
        have hx : x = im := by simpa using hkim
        subst hx
        simp
      | succ k =>
        have hrec := hk k im (by simpa using hkim)
        have harith : n + 1 + k = n + (k + 1) := by omega
        rw [harith] at hrec
        simpa using hrec

theorem firefoxImgStep_okAssets {f : FetchOracle} (pid : List Char)
    {acc : NormResult} (h : okAssets f acc) (ip : Nat × ImgRef) :
    okAssets f (firefoxImgStep f pid acc ip) := by
  obtain ⟨i, img⟩ := ip
  simp only [firefoxImgStep]
  split
  · exact h
  · split
    · exact h
    · split
      · next blob hfetch =>
        intro a ha
        rcases List.mem_append.mp ha with hmem | hmem
        · exact h a hmem
        · simp at hmem
          subst hmem
          exact ⟨blob, hfetch⟩
      · exact h

theorem firefoxImgStep_alt_out {f : FetchOracle} (pid : List Char)
    {acc : NormResult} (h : okAssets f acc) (i : Nat) (img : ImgRef) :
    ∃ y, (firefoxImgStep f pid acc (i, img)).imgs = acc.imgs ++ [y] ∧
      y.alt = firefoxExpectedAlt f img ∧
      (∀ e, img.src ≠ [] → f (firefoxResolveSrc img.src) = Except.error e →
        y = ImgRef.mk img.src
          (img.alt ++ ((" (Image not available: ").data) ++ img.src ++ [')'])) := by
  simp only [firefoxImgStep, firefoxExpectedAlt]
  by_cases hsrc : img.src = []
  · rw [if_pos hsrc, if_pos hsrc]
    exact ⟨img, rfl, rfl, fun e he => absurd hsrc he⟩
  · rw [if_neg hsrc, if_neg hsrc]
    cases hfind : acc.assets.find? (fun a => a.originalUrl = firefoxResolveSrc img.src) with
    | some ex =>
      obtain ⟨bb, hbb⟩ := h ex (List.mem_of_find?_eq_some hfind)
      have hurl : ex.originalUrl = firefoxResolveSrc img.src := by
        have := List.find?_some hfind
        simpa using this
      rw [hurl] at hbb
      rw [hbb]
      exact ⟨_, rfl, rfl, fun e _ he => Except.noConfusion he⟩
    | none =>
      cases hfetch : f (firefoxResolveSrc img.src) with
      | ok blob =>
        exact ⟨_, rfl, rfl, fun e _ he => Except.noConfusion he⟩
      | error e =>
        exact ⟨_, rfl, rfl, fun e2 _ _ => rfl⟩

theorem firefoxFold_alt {f : FetchOracle} (pid : List Char) :
    ∀ (l : List ImgRef) (n : Nat) (acc : NormResult), okAssets f acc →
      okAssets f ((List.enumFrom n l).foldl (firefoxImgStep f pid) acc) ∧
      ∃ outs : List ImgRef,
        ((List.enumFrom n l).foldl (firefoxImgStep f pid) acc).imgs
          = acc.imgs ++ outs ∧
        ∀ (k : Nat) (im : ImgRef), l[k]? = some im →
          ∃ y, outs[k]? = some y ∧ y.alt = firefoxExpectedAlt f im ∧
            (∀ e, im.src ≠ [] → f (firefoxResolveSrc im.src) = Except.error e →
              y = ImgRef.mk im.src
                (im.alt ++ ((" (Image not available: ").data) ++ im.src ++ [')']))
  | [], n, acc => fun h =>
    ⟨h, [], by simp, fun k im hk => by simp at hk⟩
  | x :: t, n, acc => fun h => by
    have henum : List.enumFrom n (x :: t) = (n, x) :: List.enumFrom (n + 1) t := rfl
    rw [henum, List.foldl_cons]
    obtain ⟨y, hy, hyalt, hyerr⟩ := firefoxImgStep_alt_out pid h n x
    have h1 : okAssets f (firefoxImgStep f pid acc (n, x)) :=
      firefoxImgStep_okAssets pid h (n, x)
    obtain ⟨hok2, outs, houts, hks⟩ := firefoxFold_alt pid t (n + 1) _ h1
    refine ⟨hok2, y :: outs, ?_, ?_⟩
    · rw [houts, hy]
      simp
    · intro k im hkim
      cases k with
      | zero =>
        have hx : x = im := by simpa using hkim
        subst hx
        exact ⟨y, by simp, hyalt, hyerr⟩
      | succ k =>
        obtain ⟨y2, hy2, hy2alt, hy2err⟩ := hks k im (by simpa using hkim)
        exact ⟨y2, by simpa using hy2, hy2alt, hy2err⟩

theorem fileStep_okAssets {f : FetchOracle} {acc : NormResult}
    (h : okAssets f acc) (fr : FileRef) : okAssets f (firefoxFileStep f acc fr) := by
  simp only [firefoxFileStep]
  split
  · split
    · exact h
    · split
      · next blob hfetch =>
        intro a ha
        rcases List.mem_append.mp ha with hmem | hmem
        · exact h a hmem
        · simp at hmem
          subst hmem
          exact ⟨blob, hfetch⟩
      · exact h
  · exact h

theorem fileFold_okAssets {f : FetchOracle} :
    ∀ (l : List FileRef) (acc : NormResult), okAssets f acc →
      okAssets f (l.foldl (firefoxFileStep f) acc)
  | [], _, h => h
  | fr :: t, acc, h => fileFold_okAssets t _ (fileStep_okAssets h fr)

theorem fileOpt_okAssets {f : FetchOracle} {acc : NormResult}
    (h : okAssets f acc) :
    ∀ o : Option FileRef,
      okAssets f (match o with
        | some fr => firefoxFileStep f acc fr
        | none => acc)
  | some fr => fileStep_okAssets h fr
  | none => h

/-- C7: a per-asset fetch failure is handled gracefully by both normalizers.
For a post whose `k`-th inline image reference resolves to a URL whose fetch
fails, the normalizers still produce a result: no asset descriptor is
produced for that URL, the reference is retained with its `alt` text
annotated with the image-not-available marker, and every reference's final
`alt` text is the function of that reference's own fetch outcome alone. -/
theorem asset_fetch_failure_graceful (fetchBlob : FetchOracle) (post : PostDetail)
    (uc uf ec ef : List Char) (k : Nat) (im : ImgRef)
    (hec : fetchBlob uc = Except.error ec) (hef : fetchBlob uf = Except.error ef)
    (hk : post.imgs[k]? = some im) (hsrc : im.src ≠ [])
    (hcu : chromiumNormalizeUrl im.src = uc) (hfu : firefoxResolveSrc im.src = uf) :
    (chromiumProcessPost fetchBlob post).assets.countP
        (fun a => decide (a.originalUrl = uc)) = 0 ∧
    (chromiumProcessPost fetchBlob post).imgs[k]?.map ImgRef.alt =
      some (im.alt ++ ((" (Image not available)").data)) ∧
    (firefoxProcessPost fetchBlob post).assets.countP
        (fun a => decide (a.originalUrl = uf)) = 0 ∧
    (firefoxProcessPost fetchBlob post).imgs[k]? =
      some (ImgRef.mk im.src
        (im.alt ++ ((" (Image not available: ").data) ++ im.src ++ [')'])) ∧
    (∀ (j : Nat) (im2 : ImgRef), post.imgs[j]? = some im2 →
      (chromiumProcessPost fetchBlob post).imgs[j]?.map ImgRef.alt =
        some (chromiumExpectedAlt fetchBlob im2) ∧
      (firefoxProcessPost fetchBlob post).imgs[j]?.map ImgRef.alt =
        some (firefoxExpectedAlt fetchBlob im2)) := by
  have hcassets : (chromiumProcessPost fetchBlob post).assets =
      ((List.enumFrom 0 post.imgs).foldl (chromiumImgStep fetchBlob post.id)
        (NormResult.mk [] [] [])).assets := rfl
  have hcimgs : (chromiumProcessPost fetchBlob post).imgs =
      ((List.enumFrom 0 post.imgs).foldl (chromiumImgStep fetchBlob post.id)
        (NormResult.mk [] [] [])).imgs.map
        (chromiumRewriteImg ((List.enumFrom 0 post.imgs).foldl
          (chromiumImgStep fetchBlob post.id) (NormResult.mk [] [] [])).assets) := rfl
  have hokC : okAssets fetchBlob ((List.enumFrom 0 post.imgs).foldl
      (chromiumImgStep fetchBlob post.id) (NormResult.mk [] [] [])) :=
    chromiumFold_okAssets post.id _ _ (fun a ha => absurd ha (List.not_mem_nil a))
  obtain ⟨outsC, houtsC, hkC⟩ :=
    chromiumFold_out fetchBlob post.id post.imgs 0 (NormResult.mk [] [] [])
  have hCalt : ∀ (j : Nat) (im2 : ImgRef), post.imgs[j]? = some im2 →
      (chromiumProcessPost fetchBlob post).imgs[j]?.map ImgRef.alt =
        some (chromiumExpectedAlt fetchBlob im2) := by
    intro j im2 hj
    rw [hcimgs, List.getElem?_map, houtsC]
    have hj2 : ((NormResult.mk [] [] []).imgs ++ outsC)[j]? = outsC[j]? := by
      simp
    rw [hj2, hkC j im2 hj]
    simp [chromiumRewriteImg_alt, chromiumLoopOut_alt]
  have hresF : firefoxProcessPost fetchBlob post =
      post.attachments.foldl (firefoxFileStep fetchBlob)
        (match post.fileRef with
          | some f => firefoxFileStep fetchBlob
              ((List.enumFrom 0 post.imgs).foldl
                (firefoxImgStep fetchBlob post.id) (NormResult.mk [] [] [])) f
          | none => (List.enumFrom 0 post.imgs).foldl
              (firefoxImgStep fetchBlob post.id) (NormResult.mk [] [] [])) := rfl
  have hokF0 : okAssets fetchBlob (NormResult.mk [] [] []) :=
    fun a ha => absurd ha (List.not_mem_nil a)
  obtain ⟨hokF1, outsF, houtsF, hkF⟩ :=
    firefoxFold_alt post.id post.imgs 0 (NormResult.mk [] [] []) hokF0
  have hokF : okAssets fetchBlob (firefoxProcessPost fetchBlob post) := by
    rw [hresF]
    exact fileFold_okAssets post.attachments _ (fileOpt_okAssets hokF1 post.fileRef)
  have hfimgs : (firefoxProcessPost fetchBlob post).imgs = outsF := by
    rw [hresF, fileFold_imgs, fileOpt_imgs, houtsF]
    simp
  have hFalt : ∀ (j : Nat) (im2 : ImgRef), post.imgs[j]? = some im2 →
      (firefoxProcessPost fetchBlob post).imgs[j]?.map ImgRef.alt =
        some (firefoxExpectedAlt fetchBlob im2) := by
    intro j im2 hj
    obtain ⟨y2, hy2, hy2alt, _⟩ := hkF j im2 hj
    rw [hfimgs, hy2]
    simp [hy2alt]
  refine ⟨?_, ?_, ?_, ?_, fun j im2 hj => ⟨hCalt j im2 hj, hFalt j im2 hj⟩⟩
  · rw [hcassets]
    exact countP_zero_of_okAssets hokC hec
  · rw [hCalt k im hk]
    simp [chromiumExpectedAlt, hsrc, hcu, hec]
  · exact countP_zero_of_okAssets hokF hef
  · obtain ⟨y, hy, hyalt, hyerr⟩ := hkF k im hk
    rw [hfimgs, hy]
    rw [hyerr ef hsrc (by rw [hfu]; exact hef)]

def postFailImg : PostDetail :=
  PostDetail.mk (("p7").data) (("T").data)
    [ImgRef.mk (("/i/a.png").data) (("x").data)] none []

/-- Witness: the graceful-failure theorem applied to a concrete post whose
single image reference fails to fetch in both pipelines. -/
theorem asset_fetch_failure_graceful_witness :
    (chromiumProcessPost failAllBlob postFailImg).assets.countP
        (fun a => decide (a.originalUrl = (("https://kemono.cr/i/a.png").data))) = 0 ∧
    (chromiumProcessPost failAllBlob postFailImg).imgs[0]?.map ImgRef.alt =
      some ((("x").data) ++ ((" (Image not available)").data)) ∧
    (firefoxProcessPost failAllBlob postFailImg).assets.countP
        (fun a => decide (a.originalUrl = (("https://kemono.su/i/a.png").data))) = 0 ∧
    (firefoxProcessPost failAllBlob postFailImg).imgs[0]? =
      some (ImgRef.mk (("/i/a.png").data)
        ((("x").data) ++ ((" (Image not available: ").data) ++
          (("/i/a.png").data) ++ [')'])) ∧
    (∀ (j : Nat) (im2 : ImgRef), postFailImg.imgs[j]? = some im2 →
      (chromiumProcessPost failAllBlob postFailImg).imgs[j]?.map ImgRef.alt =
        some (chromiumExpectedAlt failAllBlob im2) ∧
      (firefoxProcessPost failAllBlob postFailImg).imgs[j]?.map ImgRef.alt =
        some (firefoxExpectedAlt failAllBlob im2)) :=
  asset_fetch_failure_graceful failAllBlob postFailImg
    (("https://kemono.cr/i/a.png").data) (("https://kemono.su/i/a.png").data)
    (("Asset request failed: 500").data) (("Asset request failed: 500").data)
    0 (ImgRef.mk (("/i/a.png").data) (("x").data))
    rfl rfl rfl (by decide) (by decide) (by decide)

/-! ### Contents-page placement (claim C2, amended) -/

theorem chPre_ne_toc (x : List Char) :
    (("ch-").data) ++ x ≠ (("toc").data) := by
  intro h
  have h' : 'c' :: 'h' :: '-' :: x = (("toc").data) := h
  injection h' with h1 h2
  exact absurd h1 (by decide)

theorem chPre_ne_cover (x : List Char) :
    (("ch-").data) ++ x ≠ (("cover-xhtml").data) := by
  intro h
  have h' : 'c' :: 'h' :: '-' :: x = (("cover-xhtml").data) := h
  injection h' with h1 h2
  injection h2 with h3 h4
  exact absurd h3 (by decide)

theorem cImgManifest_spine (st : CPacker) (f m : List Char) :
    (cAddImageToManifest st f m).spineOrder = st.spineOrder := by
  simp only [cAddImageToManifest]
  split <;> rfl

theorem cImgFold_spine :
    ∀ (assets : List AssetInfo) (st : CPacker),
      (assets.foldl (fun s a => cAddImageToManifest s a.fileNameInEpub a.mimeType)
        st).spineOrder = st.spineOrder
  | [], _ => rfl
  | a :: t, st => by
    rw [List.foldl_cons, cImgFold_spine t, cImgManifest_spine]

theorem cAddChapter_c2 {st : CPacker} (t fn : List Char)
    (htoc : (("toc").data) ∉ st.spineOrder) (hinv : coverInvC st) :
    (("toc").data) ∉ (cAddChapter st t ((("ch-").data) ++ fn)).spineOrder ∧
    coverInvC (cAddChapter st t ((("ch-").data) ++ fn)) ∧
    ((("cover-xhtml").data) ∈ (cAddChapter st t ((("ch-").data) ++ fn)).spineOrder ↔
      (("cover-xhtml").data) ∈ st.spineOrder) := by
  have hsp := cAddChapter_spine st t ((("ch-").data) ++ fn)
  rw [if_neg htoc] at hsp
  by_cases hcov : (("cover-xhtml").data) ∈ st.spineOrder
  · rw [if_pos hcov] at hsp
    obtain ⟨rest, hrest⟩ := coverInvC_head hinv hcov
    rw [hrest] at hsp
    simp only [List.indexOf_cons, beq_self_eq_true, cond_true, Nat.zero_add] at hsp
    rw [List.insertIdx_succ_cons, List.insertIdx_zero] at hsp
    have htoc2 : (("toc").data) ∉
        ((("cover-xhtml").data) :: ((("ch-").data) ++ fn) :: rest) := by
      intro hmem
      rcases List.mem_cons.mp hmem with h | hmem
      · exact absurd h (by decide)
      rcases List.mem_cons.mp hmem with h | hmem
      · exact (chPre_ne_toc fn) h.symm
      · rw [hrest] at htoc
        exact htoc (List.mem_cons_of_mem _ hmem)
    refine ⟨?_, ?_, ?_⟩
    · rw [hsp]; exact htoc2
    · intro _
      rw [hsp]
      rfl
    · rw [hsp, hrest]
      simp
  · rw [if_neg hcov] at hsp
    refine ⟨?_, ?_, ?_⟩
    · rw [hsp]
      intro hmem
      rcases List.mem_append.mp hmem with h | h
      · exact htoc h
      · simp at h
    · intro hmem
      rw [hsp] at hmem
      rcases List.mem_append.mp hmem with h | h
      · exact absurd h hcov
      · simp at h
    · rw [hsp]
      constructor
      · intro hmem
        rcases List.mem_append.mp hmem with h | h
        · exact h
        · simp at h
      · exact List.mem_append_left _

theorem chromiumLoop_spine (fetchPost : DetailOracle) (fetchBlob : FetchOracle) :
    ∀ (stubs : List PostStub) (i : Nat) (used : List (List Char))
      (acc : List CPostRef) (st st' : CPacker) (acc' : List CPostRef),
      chromiumGenerateLoop fetchPost fetchBlob i used acc st stubs
        = Except.ok (st', acc') →
      (("toc").data) ∉ st.spineOrder → coverInvC st →
      (("toc").data) ∉ st'.spineOrder ∧ coverInvC st' ∧
        ((("cover-xhtml").data) ∈ st'.spineOrder ↔
          (("cover-xhtml").data) ∈ st.spineOrder) ∧
        acc'.length = acc.length + stubs.length
  | [], i, used, acc, st, st', acc', hrun, htoc, hinv => by
    simp only [chromiumGenerateLoop] at hrun
    obtain ⟨h1, h2⟩ : st = st' ∧ acc = acc' := by
      have := Except.ok.inj hrun
      exact ⟨congrArg Prod.fst this, congrArg Prod.snd this⟩
    subst h1
    subst h2
    exact ⟨htoc, hinv, Iff.rfl, by simp⟩
  | stub :: rest, i, used, acc, st, st', acc', hrun, htoc, hinv => by
    simp only [chromiumGenerateLoop] at hrun
    cases hfetch : fetchPost stub.id with
    | error e => rw [hfetch] at hrun; exact absurd hrun (by simp)
    | ok post =>
      rw [hfetch] at hrun
      have hsp1 : ((chromiumProcessPost fetchBlob post).assets.foldl
          (fun s a => cAddImageToManifest s a.fileNameInEpub a.mimeType)
          st).spineOrder = st.spineOrder := cImgFold_spine _ st
      have htoc1 : (("toc").data) ∉ ((chromiumProcessPost fetchBlob post).assets.foldl
          (fun s a => cAddImageToManifest s a.fileNameInEpub a.mimeType)
          st).spineOrder := by rw [hsp1]; exact htoc
      have hinv1 : coverInvC ((chromiumProcessPost fetchBlob post).assets.foldl
          (fun s a => cAddImageToManifest s a.fileNameInEpub a.mimeType) st) := by
        intro hmem
        rw [hsp1] at hmem ⊢
        exact hinv hmem
      obtain ⟨htoc2, hinv2, hcov2⟩ := cAddChapter_c2
        (if post.title = [] then ("Untitled Post").data else post.title)
        (uniquifyFilename used (sanitizeBasenameForXhtmlStrict
          (if post.title = [] then (("Chapter_").data) ++ natRepr i else post.title)))
        htoc1 hinv1
      obtain ⟨htoc3, hinv3, hcov3, hlen3⟩ := chromiumLoop_spine fetchPost fetchBlob
        rest (i + 1) _ _ _ st' acc' hrun htoc2 hinv2
      refine ⟨htoc3, hinv3, ?_, ?_⟩
      · rw [hcov3, hcov2, hsp1]
      · rw [hlen3]
        simp
        omega

theorem cFinalize_spine (st : CPacker) : (cFinalize st).spineOrder = st.spineOrder := rfl

theorem fFinalize_spine (st : FPacker) : (fFinalize st).spineOrder = st.spineOrder := rfl

theorem chapterPre_ne_tocpage (x : List Char) :
    (("chapter-").data) ++ x ≠ (("toc-page").data) := by
  intro h
  have h' : 'c' :: 'h' :: 'a' :: 'p' :: 't' :: 'e' :: 'r' :: '-' :: x =
      (("toc-page").data) := h
  injection h' with h1 h2
  exact absurd h1 (by decide)

theorem fAddChapter_spineEq (st : FPacker) (t pid : List Char) :
    (fAddChapter st t pid).spineOrder = st.spineOrder ++
      [(("chapter-").data) ++ (if pid = [] then natRepr (st.fileCounter + 1) else pid)] := rfl

theorem fAddChapter_c2 {st : FPacker} (t pid : List Char)
    (htoc : (("toc-page").data) ∉ st.spineOrder) (hinv : coverInvF st) :
    (("toc-page").data) ∉ (fAddChapter st t pid).spineOrder ∧
    coverInvF (fAddChapter st t pid) ∧
    ((("cover-xhtml").data) ∈ (fAddChapter st t pid).spineOrder ↔
      (("cover-xhtml").data) ∈ st.spineOrder) ∧
    (fAddChapter st t pid).tocEntries.length = st.tocEntries.length + 1 := by
  refine ⟨?_, fApply_coverInv (FOp.chapter t pid) hinv, ?_, by simp [fAddChapter]⟩
  · rw [fAddChapter_spineEq]
    intro hmem
    rcases List.mem_append.mp hmem with h | h
    · exact htoc h
    · simp at h
  · rw [fAddChapter_spineEq]
    constructor
    · intro hmem
      rcases List.mem_append.mp hmem with h | h
      · exact h
      · simp at h
    · exact List.mem_append_left _

theorem fImgManifest_spine (st : FPacker) (f lp m : List Char) :
    (fAddImageToManifest st f lp m).spineOrder = st.spineOrder := rfl

theorem fImgManifest_toc (st : FPacker) (f lp m : List Char) :
    (fAddImageToManifest st f lp m).tocEntries = st.tocEntries := rfl

theorem fImgFold_spine :
    ∀ (assets : List AssetInfo) (st : FPacker),
      (assets.foldl (fun s a => fAddImageToManifest s a.fileNameInEpub
        a.localPathInEpub a.mimeType) st).spineOrder = st.spineOrder
  | [], _ => rfl
  | a :: t, st => by
    rw [List.foldl_cons, fImgFold_spine t, fImgManifest_spine]

theorem fImgFold_toc :
    ∀ (assets : List AssetInfo) (st : FPacker),
      (assets.foldl (fun s a => fAddImageToManifest s a.fileNameInEpub
        a.localPathInEpub a.mimeType) st).tocEntries = st.tocEntries
  | [], _ => rfl
  | a :: t, st => by
    rw [List.foldl_cons, fImgFold_toc t, fImgManifest_toc]

theorem firefoxLoop_spine (fetchPost : DetailOracle) (fetchBlob : FetchOracle)
    (fraction : Rat) :
    ∀ (stubs : List PostStub) (progress : Rat) (adv : Nat)
      (failed : List (List Char)) (st : FPacker),
      (("toc-page").data) ∉ st.spineOrder → coverInvF st →
      (("toc-page").data) ∉ (firefoxGenerateLoop fetchPost fetchBlob fraction
          progress adv failed st stubs).1.spineOrder ∧
      coverInvF (firefoxGenerateLoop fetchPost fetchBlob fraction
          progress adv failed st stubs).1 ∧
      ((("cover-xhtml").data) ∈ (firefoxGenerateLoop fetchPost fetchBlob fraction
          progress adv failed st stubs).1.spineOrder ↔
        (("cover-xhtml").data) ∈ st.spineOrder) ∧
      (firefoxGenerateLoop fetchPost fetchBlob fraction
          progress adv failed st stubs).1.tocEntries.length =
        st.tocEntries.length +
          stubs.countP (fun s => (fetchPost s.id).toOption.isSome)
  | [], progress, adv, failed, st, htoc, hinv =>
    ⟨htoc, hinv, Iff.rfl, by simp [firefoxGenerateLoop]⟩
  | stub :: rest, progress, adv, failed, st, htoc, hinv => by
    simp only [firefoxGenerateLoop]
    cases hfetch : fetchPost stub.id with
    | error e =>
      obtain ⟨h1, h2, h3, h4⟩ := firefoxLoop_spine fetchPost fetchBlob fraction
        rest (progress + fraction) (adv + 1) (failed ++ [stub.id]) st htoc hinv
      refine ⟨h1, h2, h3, ?_⟩
      rw [h4, List.countP_cons]
      simp [hfetch, Except.toOption]
    | ok post =>
      have hsp1 := fImgFold_spine (firefoxProcessPost fetchBlob post).assets st
      have htc1 := fImgFold_toc (firefoxProcessPost fetchBlob post).assets st
      have htoc1 : (("toc-page").data) ∉ ((firefoxProcessPost fetchBlob post).assets.foldl
          (fun s a => fAddImageToManifest s a.fileNameInEpub
            a.localPathInEpub a.mimeType) st).spineOrder := by
        rw [hsp1]; exact htoc
      have hinv1 : coverInvF ((firefoxProcessPost fetchBlob post).assets.foldl
          (fun s a => fAddImageToManifest s a.fileNameInEpub
            a.localPathInEpub a.mimeType) st) := by
        intro hmem
        rw [hsp1] at hmem ⊢
        exact hinv hmem
      obtain ⟨htoc2, hinv2, hcov2, hlen2⟩ := fAddChapter_c2
        (if post.title = [] then ("Untitled Post").data else post.title)
        stub.id htoc1 hinv1
      obtain ⟨h1, h2, h3, h4⟩ := firefoxLoop_spine fetchPost fetchBlob fraction
        rest (progress + fraction) (adv + 1) failed _ htoc2 hinv2
      refine ⟨h1, h2, ?_, ?_⟩
      · rw [h3, hcov2, hsp1]
      · rw [h4, hlen2, htc1, List.countP_cons]
        simp [hfetch, Except.toOption]
        omega

theorem fTocPage_spec {st : FPacker} (hlen : 1 < st.tocEntries.length)
    (htoc : (("toc-page").data) ∉ st.spineOrder) (hinv : coverInvF st) :
    (fAddTableOfContentsPage st).spineOrder.count (("toc-page").data) = 1 ∧
    (fAddTableOfContentsPage st).spineOrder.indexOf (("toc-page").data) =
      (if (("cover-xhtml").data) ∈ (fAddTableOfContentsPage st).spineOrder
        then 1 else 0) := by
  have hsp : (fAddTableOfContentsPage st).spineOrder =
      st.spineOrder.insertIdx
        (if (("cover-xhtml").data) ∈ st.spineOrder then
          st.spineOrder.indexOf (("cover-xhtml").data) + 1 else 0)
        (("toc-page").data) := by
    unfold fAddTableOfContentsPage
    rw [if_pos hlen]
  by_cases hcov : (("cover-xhtml").data) ∈ st.spineOrder
  · obtain ⟨rest, hrest⟩ := coverInvF_head hinv hcov
    rw [if_pos hcov, hrest] at hsp
    simp only [List.indexOf_cons, beq_self_eq_true, cond_true, Nat.zero_add] at hsp
    rw [List.insertIdx_succ_cons, List.insertIdx_zero] at hsp
    have hnr : (("toc-page").data) ∉ rest := by
      intro hm
      exact htoc (hrest ▸ List.mem_cons_of_mem _ hm)
    constructor
    · rw [hsp, List.count_cons, List.count_cons, List.count_eq_zero.mpr hnr]
      decide
    · rw [hsp, if_pos (List.mem_cons_self _ _)]
      simp only [List.indexOf_cons,
        beq_false_of_ne (show (("cover-xhtml").data) ≠ (("toc-page").data) by decide),
        cond_false, beq_self_eq_true, cond_true]
  · rw [if_neg hcov, List.insertIdx_zero] at hsp
    constructor
    · rw [hsp, List.count_cons, List.count_eq_zero.mpr htoc]
      decide
    · have hcov2 : (("cover-xhtml").data) ∉
          ((("toc-page").data) :: st.spineOrder) := by
        intro hm
        rcases List.mem_cons.mp hm with h | h
        · exact absurd h (by decide)
        · exact hcov h
      rw [hsp, if_neg hcov2]
      simp only [List.indexOf_cons, beq_self_eq_true, cond_true]

theorem coverBranch_spineC (url : List Char) :
    ∀ (r : Except (List Char) JsBlob),
      ((match r with
        | Except.error _ => cAddStylesheet cInit
        | Except.ok b =>
          cAddCoverImage (cAddStylesheet cInit)
            ((("cover.").data) ++ (processImageBlob b url).2.2)
            (processImageBlob b url).2.1).spineOrder = [] ∨
      (match r with
        | Except.error _ => cAddStylesheet cInit
        | Except.ok b =>
          cAddCoverImage (cAddStylesheet cInit)
            ((("cover.").data) ++ (processImageBlob b url).2.2)
            (processImageBlob b url).2.1).spineOrder = [(("cover-xhtml").data)])
  | Except.error _ => Or.inl rfl
  | Except.ok _ => Or.inr rfl

theorem coverBranch_f (f1 m1 : List Char) :
    ∀ (r : Except (List Char) JsBlob),
      ((match r with
        | Except.error _ => fAddStylesheet fInit
        | Except.ok _ =>
          fAddCoverImage (fAddStylesheet fInit) f1 m1).spineOrder = [] ∨
       (match r with
        | Except.error _ => fAddStylesheet fInit
        | Except.ok _ =>
          fAddCoverImage (fAddStylesheet fInit) f1 m1).spineOrder =
         [(("cover-xhtml").data)]) ∧
      (match r with
        | Except.error _ => fAddStylesheet fInit
        | Except.ok _ =>
          fAddCoverImage (fAddStylesheet fInit) f1 m1).tocEntries = []
  | Except.error _ => ⟨Or.inl rfl, rfl⟩
  | Except.ok _ => ⟨Or.inr rfl, rfl⟩

/-- C2 amended: the Firefox generator adds a human-readable contents page
exactly when more than one chapter was produced, and places it at spine
position 1 when a cover is present and 0 otherwise; the Chromium generator
diverges from the claim by adding its contents page for every run with at
least one chapter — including single-chapter runs — at the same position. -/
theorem contents_page_placement
    (fetchPost : DetailOracle) (fetchBlob : FetchOracle)
    (coverUrl : Option (List Char)) (stubs : List PostStub) (stF : CPacker)
    (hc : chromiumGenerate fetchPost fetchBlob coverUrl stubs = Except.ok stF)
    (gPost : DetailOracle) (gBlob : FetchOracle) (gCover : Option (List Char))
    (gStubs : List PostStub) :
    (stubs = [] → (("toc").data) ∉ stF.spineOrder) ∧
    (stubs ≠ [] →
      stF.spineOrder.count (("toc").data) = 1 ∧
      stF.spineOrder.indexOf (("toc").data) =
        (if (("cover-xhtml").data) ∈ stF.spineOrder then 1 else 0)) ∧
    (gStubs.countP (fun s => (gPost s.id).toOption.isSome) ≤ 1 →
      (("toc-page").data) ∉
        (firefoxGenerate gPost gBlob gCover gStubs).packer.spineOrder) ∧
    (1 < gStubs.countP (fun s => (gPost s.id).toOption.isSome) →
      (firefoxGenerate gPost gBlob gCover gStubs).packer.spineOrder.count
        (("toc-page").data) = 1 ∧
      (firefoxGenerate gPost gBlob gCover gStubs).packer.spineOrder.indexOf
        (("toc-page").data) =
        (if (("cover-xhtml").data) ∈
          (firefoxGenerate gPost gBlob gCover gStubs).packer.spineOrder
         then 1 else 0)) := by
  set s1 := (match coverUrl with
    | none => cAddStylesheet cInit
    | some url =>
      match fetchBlob url with
      | Except.error _ => cAddStylesheet cInit
      | Except.ok b =>
        cAddCoverImage (cAddStylesheet cInit)
          ((("cover.").data) ++ (processImageBlob b url).2.2)
          (processImageBlob b url).2.1) with hs1
  have hcgen : (match chromiumGenerateLoop fetchPost fetchBlob 0 [] [] s1 stubs with
      | Except.error e => Except.error e
      | Except.ok (st, acc) =>
        Except.ok (cFinalize
          (if acc.length > 0 then cAddTableOfContents st acc else st)))
      = Except.ok stF := by
    rw [hs1]
    exact hc
  have hs1spine : s1.spineOrder = [] ∨
      s1.spineOrder = [(("cover-xhtml").data)] := by
    rw [hs1]
    cases coverUrl with
    | none => exact Or.inl rfl
    | some url => exact coverBranch_spineC url (fetchBlob url)
  have htoc0 : (("toc").data) ∉ s1.spineOrder := by
    rcases hs1spine with h | h <;> rw [h] <;> decide
  have hinv0 : coverInvC s1 := by
    rcases hs1spine with h | h <;> intro hmem <;> rw [h] at hmem ⊢
    · simp at hmem
    · rfl
  rcases hloop : chromiumGenerateLoop fetchPost fetchBlob 0 [] [] s1 stubs with e | p
  · rw [hloop] at hcgen
    exact absurd hcgen (by simp)
  obtain ⟨st, acc⟩ := p
  rw [hloop] at hcgen
  have hstF : stF = cFinalize
      (if acc.length > 0 then cAddTableOfContents st acc else st) :=
    (Except.ok.inj hcgen).symm
  obtain ⟨htocL, hinvL, hcovL, hlenL⟩ := chromiumLoop_spine fetchPost fetchBlob
    stubs 0 [] [] s1 st acc hloop htoc0 hinv0
  refine ⟨?_, ?_, ?_, ?_⟩
  · intro hnil
    subst hnil
    rw [if_neg (by simp only [List.length_nil] at hlenL; omega :
      ¬ acc.length > 0)] at hstF
    rw [hstF, cFinalize_spine]
    exact htocL
  · intro hne
    have hpos : acc.length > 0 := by
      have := List.length_pos.mpr hne
      omega
    rw [if_pos hpos] at hstF
    have hspF : stF.spineOrder = (cAddTableOfContents st acc).spineOrder := by
      rw [hstF, cFinalize_spine]
    have hsp := cAddTableOfContents_spine st acc
    by_cases hcov : (("cover-xhtml").data) ∈ st.spineOrder
    · obtain ⟨rest, hrest⟩ := coverInvC_head hinvL hcov
      rw [if_pos hcov, hrest] at hsp
      simp only [List.indexOf_cons, beq_self_eq_true, cond_true, Nat.zero_add] at hsp
      rw [List.insertIdx_succ_cons, List.insertIdx_zero] at hsp
      rw [hsp] at hspF
      have hnr : (("toc").data) ∉ rest := by
        intro hm
        exact htocL (hrest ▸ List.mem_cons_of_mem _ hm)
      constructor
      · rw [hspF, List.count_cons, List.count_cons, List.count_eq_zero.mpr hnr]
        decide
      · rw [hspF, if_pos (List.mem_cons_self _ _)]
        simp only [List.indexOf_cons,
          beq_false_of_ne (show (("cover-xhtml").data) ≠ (("toc").data) by decide),
          cond_false, beq_self_eq_true, cond_true]
    · rw [if_neg hcov] at hsp
      rw [hsp] at hspF
      constructor
      · rw [hspF, List.count_cons, List.count_eq_zero.mpr htocL]
        decide
      · have hcov2 : (("cover-xhtml").data) ∉ ((("toc").data) :: st.spineOrder) := by
          intro hm
          rcases List.mem_cons.mp hm with h | h
          · exact absurd h (by decide)
          · exact hcov h
        rw [hspF, if_neg hcov2]
        simp only [List.indexOf_cons, beq_self_eq_true, cond_true]
  all_goals {
    set g1 := (match gCover with
      | none => fAddStylesheet fInit
      | some url =>
        match gBlob url with
        | Except.error _ => fAddStylesheet fInit
        | Except.ok _ =>
          fAddCoverImage (fAddStylesheet fInit)
            ((("cover.").data) ++ (if splitLastDot url = [] then ("jpeg").data
              else lowerL (splitLastDot url)))
            ((("image/").data) ++
              (if (if splitLastDot url = [] then ("jpeg").data
                  else lowerL (splitLastDot url)) = ("jpg").data
                then ("jpeg").data
                else (if splitLastDot url = [] then ("jpeg").data
                  else lowerL (splitLastDot url))))) with hg1
    have hpackF : (firefoxGenerate gPost gBlob gCover gStubs).packer =
        fFinalize (if 1 < (firefoxGenerateLoop gPost gBlob
            (if gStubs.length = 0 then 0 else (75 : Rat) / gStubs.length)
            20 0 [] g1 gStubs).1.tocEntries.length
          then fAddTableOfContentsPage (firefoxGenerateLoop gPost gBlob
            (if gStubs.length = 0 then 0 else (75 : Rat) / gStubs.length)
            20 0 [] g1 gStubs).1
          else (firefoxGenerateLoop gPost gBlob
            (if gStubs.length = 0 then 0 else (75 : Rat) / gStubs.length)
            20 0 [] g1 gStubs).1) := by
      rw [hg1]
      rfl
    have hg1spine : g1.spineOrder = [] ∨
        g1.spineOrder = [(("cover-xhtml").data)] := by
      rw [hg1]
      cases gCover with
      | none => exact Or.inl rfl
      | some url => exact (coverBranch_f _ _ (gBlob url)).1
    have hg1toc : g1.tocEntries = [] := by
      rw [hg1]
      cases gCover with
      | none => rfl
      | some url => exact (coverBranch_f _ _ (gBlob url)).2
    have htoc0f : (("toc-page").data) ∉ g1.spineOrder := by
      rcases hg1spine with h | h <;> rw [h] <;> decide
    have hinv0f : coverInvF g1 := by
      rcases hg1spine with h | h <;> intro hmem <;> rw [h] at hmem ⊢
      · simp at hmem
      · rfl
    obtain ⟨htocF, hinvF, hcovF, hlenF⟩ := firefoxLoop_spine gPost gBlob
      (if gStubs.length = 0 then 0 else (75 : Rat) / gStubs.length)
      gStubs 20 0 [] g1 htoc0f hinv0f
    rw [hg1toc] at hlenF
    simp only [List.length_nil, Nat.zero_add] at hlenF
    first
    | · intro hle
        rw [hpackF, if_neg (by rw [hlenF]; omega), fFinalize_spine]
        exact htocF
    | · intro hgt
        rw [hpackF, if_pos (by rw [hlenF]; omega), fFinalize_spine]
        exact fTocPage_spec (by rw [hlenF]; omega) htocF hinvF
  }

def cGenWitPacker : CPacker :=
  match chromiumGenerate oracleAB okPngBlob none [stubA, stubB] with
  | Except.ok st => st
  | Except.error _ => cInit

/-- Witness: the contents-page placement theorem applied to a concrete
two-post run of both generators. -/
theorem contents_page_placement_witness :
    (([stubA, stubB] : List PostStub) = [] →
      (("toc").data) ∉ cGenWitPacker.spineOrder) ∧
    (([stubA, stubB] : List PostStub) ≠ [] →
      cGenWitPacker.spineOrder.count (("toc").data) = 1 ∧
      cGenWitPacker.spineOrder.indexOf (("toc").data) =
        (if (("cover-xhtml").data) ∈ cGenWitPacker.spineOrder then 1 else 0)) ∧
    (([stubA, stubB] : List PostStub).countP
        (fun s => (oracleAB s.id).toOption.isSome) ≤ 1 →
      (("toc-page").data) ∉
        (firefoxGenerate oracleAB okPngBlob none
          [stubA, stubB]).packer.spineOrder) ∧
    (1 < ([stubA, stubB] : List PostStub).countP
        (fun s => (oracleAB s.id).toOption.isSome) →
      (firefoxGenerate oracleAB okPngBlob none
          [stubA, stubB]).packer.spineOrder.count (("toc-page").data) = 1 ∧
      (firefoxGenerate oracleAB okPngBlob none
          [stubA, stubB]).packer.spineOrder.indexOf (("toc-page").data) =
        (if (("cover-xhtml").data) ∈
          (firefoxGenerate oracleAB okPngBlob none
            [stubA, stubB]).packer.spineOrder
         then 1 else 0)) :=
  contents_page_placement oracleAB okPngBlob none [stubA, stubB] cGenWitPacker rfl
    oracleAB okPngBlob none [stubA, stubB]
